import Mathlib

/-!
A verification development for the `strong-soap` codec core
(`src/parser/xmlHandler.js`): the descriptor-driven XML serializer
(`XMLHandler.jsonToXml`) and the SAX-event-driven deserializer
(`XMLHandler.xmlToJson`), together with typed value coercion
(`parseValue`), key ordering (`_sortKeys`), SOAP fault message
composition, multiref resolution and the xsi:nil / xsi:type handling.

The JavaScript value universe is embedded as the mutual inductive
family `JValue`/`JItems`/`JProps` (objects are insertion-ordered
property lists, as in JS; `undef` models `undefined`).  Mutation is
embedded by explicit state passing.  The external collaborator modules
of the repository that are not part of the analysed source
(`qname.js`, `nscontext.js`, `helper.js`, the `sax` tokenizer and the
`xmlbuilder` tree builder) are modelled from the specification; every
such definition carries a doc comment saying so.
-/

namespace StrongSoap

/-! ## The JavaScript value model -/

mutual

/-- A JavaScript value as handled by the codec: `undefined`, `null`,
strings, numbers, booleans, `Date` objects (kept abstract as the text
they were parsed from), arrays and plain objects.  A plain object
carries its fields in insertion order; the optional `tag` is the
multiref site identity used to embed the reference aliasing of SOAP
`href` placeholders (a plain object built by ordinary code has
`tag = none`). -/
inductive JValue where
  | undef
  | null
  | str (s : String)
  | num (n : Int)
  | bool (b : Bool)
  | date (s : String)
  | arr (elems : JItems)
  | obj (tag : Option Nat) (fields : JProps)

/-- A list of JavaScript values (array elements). -/
inductive JItems where
  | nil
  | cons (head : JValue) (tail : JItems)

/-- Insertion-ordered property list of a JavaScript object. -/
inductive JProps where
  | nil
  | cons (key : String) (val : JValue) (tail : JProps)

end

mutual

def JValue.beq : JValue → JValue → Bool
  | .undef, .undef => true
  | .null, .null => true
  | .str a, .str b => a == b
  | .num a, .num b => a == b
  | .bool a, .bool b => a == b
  | .date a, .date b => a == b
  | .arr a, .arr b => JItems.beq a b
  | .obj t a, .obj u b => t == u && JProps.beq a b
  | _, _ => false

def JItems.beq : JItems → JItems → Bool
  | .nil, .nil => true
  | .cons a as, .cons b bs => JValue.beq a b && JItems.beq as bs
  | _, _ => false

def JProps.beq : JProps → JProps → Bool
  | .nil, .nil => true
  | .cons k v t, .cons k' v' t' => k == k' && JValue.beq v v' && JProps.beq t t'
  | _, _ => false

end

mutual

theorem JValue.beq_iff : ∀ a b : JValue, JValue.beq a b = true ↔ a = b
  | .undef, b => by cases b <;> simp [JValue.beq]
  | .null, b => by cases b <;> simp [JValue.beq]
  | .str s, b => by cases b <;> simp [JValue.beq]
  | .num n, b => by cases b <;> simp [JValue.beq]
  | .bool x, b => by cases b <;> simp [JValue.beq]
  | .date s, b => by cases b <;> simp [JValue.beq]
  | .arr xs, b => by
    cases b <;> simp [JValue.beq]
    exact JItems.beqItems_iff xs _
  | .obj t fs, b => by
    cases b <;> simp [JValue.beq]
    intro _
    exact JProps.beqProps_iff fs _

theorem JItems.beqItems_iff : ∀ a b : JItems, JItems.beq a b = true ↔ a = b
  | .nil, b => by cases b <;> simp [JItems.beq]
  | .cons v vs, b => by
    cases b <;> simp [JItems.beq]
    rw [JValue.beq_iff v _, JItems.beqItems_iff vs _]

theorem JProps.beqProps_iff : ∀ a b : JProps, JProps.beq a b = true ↔ a = b
  | .nil, b => by cases b <;> simp [JProps.beq]
  | .cons k v t, b => by
    cases b <;> simp [JProps.beq]
    rw [JValue.beq_iff v _, JProps.beqProps_iff t _]
    tauto

end

instance : DecidableEq JValue := fun a b => decidable_of_iff _ (JValue.beq_iff a b)

instance : DecidableEq JProps := fun a b => decidable_of_iff _ (JProps.beqProps_iff a b)

instance : DecidableEq JItems := fun a b => decidable_of_iff _ (JItems.beqItems_iff a b)

/-- Build a property list from a Lean association list. -/
def JProps.ofList : List (String × JValue) → JProps
  | [] => .nil
  | (k, v) :: rest => .cons k v (JProps.ofList rest)

/-- Build an item list from a Lean list. -/
def JItems.ofList : List JValue → JItems
  | [] => .nil
  | v :: rest => .cons v (JItems.ofList rest)

/-- The keys of a property list, in insertion order (`Object.keys`). -/
def JProps.keys : JProps → List String
  | .nil => []
  | .cons k _ t => k :: JProps.keys t

/-- Whether a key is present (the JS `in` operator on a plain object;
a key holding `undefined` still counts as present). -/
def JProps.hasKey : JProps → String → Bool
  | .nil, _ => false
  | .cons k _ t, key => k == key || JProps.hasKey t key

/-- Property read: value of the first matching key, `undef` if absent. -/
def JProps.get : JProps → String → JValue
  | .nil, _ => .undef
  | .cons k v t, key => if k == key then v else JProps.get t key

/-- Property write with JS object semantics: an existing key keeps its
position and gets the new value, a new key is appended at the end. -/
def JProps.set : JProps → String → JValue → JProps
  | .nil, key, v => .cons key v .nil
  | .cons k w t, key, v =>
    if k == key then .cons k v t else .cons k w (JProps.set t key v)

/-- JS property access `v[key]` for the keys the codec reads: a plain
object looks the key up, every other value yields `undefined`. -/
def jsGet (v : JValue) (key : String) : JValue :=
  match v with
  | .obj _ fields => fields.get key
  | _ => JValue.undef

/-- JS `key in v` for plain objects; `false` for every other value. -/
def jsHasKey (v : JValue) (key : String) : Bool :=
  match v with
  | .obj _ fields => fields.hasKey key
  | _ => false

/-- JS property assignment `v[key] = x`.  On a plain object the field
is updated/appended; on any other value the sloppy-mode assignment is
silently discarded (the codec relies on this only in corner cases). -/
def jsSetKey (v : JValue) (key : String) (x : JValue) : JValue :=
  match v with
  | .obj tag fields => .obj tag (fields.set key x)
  | _ => v

/-- JS truthiness. -/
def jsTruthy : JValue → Bool
  | .undef => false
  | .null => false
  | .str s => s ≠ ""
  | .num n => n ≠ 0
  | .bool b => b
  | .date _ => true
  | .arr _ => true
  | .obj _ _ => true

/-- JS loose equality to `null` (`v == null`): true exactly for `null`
and `undefined`. -/
def jsIsNullish : JValue → Bool
  | .null => true
  | .undef => true
  | _ => false

/-- JS `typeof v === 'object'` (true for `null`, arrays, dates and
plain objects). -/
def jsTypeofObject : JValue → Bool
  | .null => true
  | .arr _ => true
  | .obj _ _ => true
  | .date _ => true
  | _ => false

/-- JS `v.constructor === Object` after `null`/`undefined` have been
ruled out: true exactly for plain objects (multiref placeholders are
plain objects too). -/
def jsIsPlainObject : JValue → Bool
  | .obj _ _ => true
  | _ => false

mutual

/-- JS string coercion `String(v)` for the values the codec can meet.
Array elements join with `,` (with `null`/`undefined` rendering
empty), plain objects render as `[object Object]`.  A `Date` renders
as the text it was parsed from: the engine-specific `Date.toString`
output of the external runtime is abstracted. -/
def jsToStr : JValue → String
  | .undef => "undefined"
  | .null => "null"
  | .str s => s
  | .num n => toString n
  | .bool b => cond b "true" "false"
  | .date s => s
  | .arr xs => String.intercalate "," (jsToStrItems xs)
  | .obj _ _ => "[object Object]"

def jsToStrItems : JItems → List String
  | .nil => []
  | .cons v vs =>
    (match v with
     | .null => ""
     | .undef => ""
     | v => jsToStr v) :: jsToStrItems vs

end

/-- JS `+` for the operand shapes the deserializer's text merging can
produce: two numbers add, anything else concatenates the string
coercions (the exotic numeric coercions of `+` on booleans and `null`
are not reachable from text merging and are approximated by
concatenation). -/
def jsPlus (a b : JValue) : JValue :=
  match a, b with
  | .num x, .num y => .num (x + y)
  | _, _ => .str (jsToStr a ++ jsToStr b)

mutual

/-- `JSON.stringify` for the values reachable in fault messages; a
top-level `undefined` renders as the text `undefined` produced by the
surrounding string concatenation in the source. -/
def jsonStringify : JValue → String
  | .undef => "undefined"
  | .null => "null"
  | .str s => "\"" ++ s ++ "\""
  | .num n => toString n
  | .bool b => cond b "true" "false"
  | .date s => "\"" ++ s ++ "\""
  | .arr xs => "[" ++ String.intercalate "," (jsonStringifyItems xs) ++ "]"
  | .obj _ fs => "\x7b" ++ String.intercalate "," (jsonStringifyProps fs) ++ "\x7d"

def jsonStringifyItems : JItems → List String
  | .nil => []
  | .cons v vs => jsonStringify v :: jsonStringifyItems vs

def jsonStringifyProps : JProps → List String
  | .nil => []
  | .cons k v t => ("\"" ++ k ++ "\":" ++ jsonStringify v) :: jsonStringifyProps t

end

/-- Rebuild a string from its character list. -/
def strOfChars (l : List Char) : String := String.mk l

/-- Whether `needle` occurs as a contiguous run in `hay`. -/
def subSearch (needle : List Char) : List Char → Bool
  | [] => needle.isEmpty
  | h :: t => needle.isPrefixOf (h :: t) || subSearch needle t

/-- Substring test (the unanchored regular-expression tests of the
source): true when `pat` occurs somewhere in `s`. -/
def containsSub (s pat : String) : Bool :=
  subSearch pat.data s.data

/-- Index of the first occurrence of `needle` in `hay`. -/
def firstIdxOf (needle : List Char) : List Char → Option Nat
  | [] => none
  | h :: t =>
    if needle.isPrefixOf (h :: t) then some 0
    else (firstIdxOf needle t).map (· + 1)

def removeFirstChars (needle : List Char) : List Char → List Char
  | [] => []
  | h :: t =>
    if needle.isPrefixOf (h :: t) then (h :: t).drop needle.length
    else h :: removeFirstChars needle t

/-- JS `String.prototype.replace` with a plain-string pattern:
replaces only the first occurrence (deletion here). -/
def removeFirst (s pat : String) : String :=
  strOfChars (removeFirstChars pat.data s.data)

/-- The `/<\?xml[\s\S]+\?>/` test of the CDATA handler: an `xml`
declaration opener followed, at least one character later, by `?>`
(existence of a match anywhere, as `RegExp.test` checks). -/
def containsXmlDecl (s : String) : Bool :=
  match firstIdxOf "<?xml".data s.data with
  | none => false
  | some i => subSearch "?>".data (s.data.drop (i + 6))

/-- The character class of JS `String.prototype.trim` restricted to
the whitespace the tokenizer can deliver. -/
def isJsWhitespace (c : Char) : Bool :=
  c == ' ' || c == '\t' || c == '\n' || c == '\r'

/-- JS `text.trim()`. -/
def jsTrim (s : String) : String :=
  strOfChars (((s.data.dropWhile isJsWhitespace).reverse.dropWhile isJsWhitespace).reverse)

/-- JS `s.substr(1)`. -/
def strDropOne (s : String) : String := strOfChars (s.data.drop 1)

/-! ## Qualified names (modelled from the spec) -/

/-- Modelled from the spec: the qualified-name triple of the external
`qname.js` module (§2 "Qualified Name": immutable (namespace-URI,
local-name, prefix) triple with text parse/format).  `pfx` is the
namespace prefix. -/
structure ParsedQName where
  pfx : Option String := none
  name : String
  nsURI : Option String := none

/-- Modelled from the spec: `QName.parse(text)` splits a `pfx:local`
form at the first colon into prefix and local name; text without a
colon has no prefix. -/
def splitAtColon : List Char → Option (List Char × List Char)
  | [] => none
  | c :: t =>
    if c == ':' then some ([], t)
    else
      match splitAtColon t with
      | some (a, b) => some (c :: a, b)
      | none => none

def qnameParse (s : String) : ParsedQName :=
  match splitAtColon s.data with
  | some (p, n) => { pfx := some (strOfChars p), name := strOfChars n }
  | none => { pfx := none, name := s }

/-- Modelled from the spec: the two-argument `QName.parse(text, xmlns)`
used for `$xsiType` values additionally records the namespace URI. -/
def qnameParse2 (s : String) (xmlns : Option String) : ParsedQName :=
  { qnameParse s with nsURI := xmlns }

/-- Modelled from the spec: the XML-Schema-Instance namespace URI from
the external `helper.js` (`helper.namespaces.xsi`). -/
def xsiURI : String := "http://www.w3.org/2001/XMLSchema-instance"

/-! ## Namespace scope stack (modelled from the spec) -/

/-- Modelled from the spec (§3): one prefix→(URI, declared-flag)
binding of a namespace scope frame. -/
structure NsBinding where
  pfx : String
  uri : String
  declared : Bool

/-- Modelled from the spec (§3): the namespace scope stack is an
ordered sequence of frames, innermost first, each a set of bindings. -/
def NsContext := List (List NsBinding)

/-- A fresh per-call namespace context: one empty root scope. -/
def freshNs : NsContext := [[]]

/-- Modelled from the spec (§4.1): `pushContext` opens a scope. -/
def NsContext.pushContext (ns : NsContext) : NsContext := [] :: ns

/-- Modelled from the spec (§4.1): `popContext` removes exactly the
bindings pushed with the innermost frame.  Popping an empty stack is a
programming-contract violation in the source; the embedding leaves the
empty stack unchanged (the contract is respected at every call site
settled here). -/
def NsContext.popContext (ns : NsContext) : NsContext :=
  match ns with
  | [] => []
  | _ :: rest => rest

/-- Modelled from the spec (§4.4): the deserializer registers an
`xmlns` attribute as a (not separately re-declared) binding in the
current scope. -/
def NsContext.addNamespace (ns : NsContext) (p uri : String) : NsContext :=
  match ns with
  | [] => [[{ pfx := p, uri := uri, declared := false }]]
  | scope :: rest => ({ pfx := p, uri := uri, declared := false } :: scope) :: rest

/-- Modelled from the spec (§4.1): `resolveURI` walks frames
innermost-to-outermost. -/
def NsContext.getNamespaceURI (ns : NsContext) (p : String) : Option String :=
  match ns with
  | [] => none
  | scope :: rest =>
    match scope.find? (fun b => b.pfx == p) with
    | some b => some b.uri
    | none => NsContext.getNamespaceURI rest p

/-- Modelled from the spec: reverse lookup of the innermost binding of
a namespace URI, as used by the serializer to reuse prefixes. -/
def NsContext.getPrefixMapping (ns : NsContext) (uri : Option String) : Option NsBinding :=
  match uri with
  | none => none
  | some u =>
    match ns with
    | [] => none
    | scope :: rest =>
      match scope.find? (fun b => b.uri == u) with
      | some b => some b
      | none => NsContext.getPrefixMapping rest (some u)

/-- Count of all visible bindings; feeds synthetic prefix generation. -/
def NsContext.countBindings (ns : NsContext) : Nat :=
  (List.map List.length ns).sum

/-- Modelled from the spec (§4.1): `declare(prefix?, URI)` — a URI
already visible (and declared) in an enclosing frame is never
re-declared (the call reports no new mapping, matching the falsy
return the serializer tests); otherwise a binding marked
newly-declared is created in the current frame, synthesizing a prefix
if none was requested. -/
def NsContext.declareNamespace (ns : NsContext) (p : Option String) (uri : Option String) :
    NsContext × Option NsBinding :=
  match uri with
  | none => (ns, none)
  | some u =>
    let visible := ns.any (fun scope => scope.any (fun b => b.uri == u && b.declared))
    if visible then (ns, none)
    else
      let px := p.getD ("ns" ++ toString (ns.countBindings + 1))
      let b : NsBinding := { pfx := px, uri := u, declared := true }
      match ns with
      | [] => ([[b]], some b)
      | scope :: rest => ((b :: scope) :: rest, some b)

/-! ## Descriptors (data model of §3, shapes consumed by the core) -/

/-- Declared JS conversion type of a simple value (`descriptor.jsType`
in the source): the `Date` and `Boolean` constructors are
special-cased by `parseValue`; any other conversion function is
applied directly. -/
inductive JsTy where
  | date
  | boolean
  | fn (f : String → JValue)

/-- The `form` of an element or attribute descriptor. -/
inductive Form where
  | qualified
  | unqualified
deriving DecidableEq

/-- The declared type reference of a descriptor (`descriptor.type`):
qualified type name plus, for anonymous embedded simple types, the
restriction-enforcement hook the schema layer attaches
(`descriptor.type.anonymous` with its `restriction.enforce`). -/
structure TypeRef where
  nsURI : String
  name : String
  anonymousRestriction : Option (JValue → JValue) := none

/-- `AttributeDescriptor`: qualified name, form, declared type and JS
conversion type. -/
structure AttrDesc where
  qname : ParsedQName
  typeRef : Option TypeRef := none
  form : Form
  jsType : Option JsTy := none

/-- `ElementDescriptor`.  `inheritanceExt` collapses the source's
`descriptor.refOriginal.typeDescriptor.inheritance` chain (each link
optional in the source) into one optional mapping from subtype name to
the extension's extra child element descriptors. -/
inductive ElemDesc where
  | mk (qname : ParsedQName) (typeRef : Option TypeRef) (form : Form)
      (isMany : Bool) (isNillable : Bool) (isSimple : Bool)
      (jsType : Option JsTy)
      (elements : List ElemDesc)
      (attributes : List AttrDesc)
      (inheritanceExt : Option (List (String × List ElemDesc)))

def ElemDesc.qname : ElemDesc → ParsedQName
  | .mk q _ _ _ _ _ _ _ _ _ => q

def ElemDesc.typeRef : ElemDesc → Option TypeRef
  | .mk _ t _ _ _ _ _ _ _ _ => t

def ElemDesc.form : ElemDesc → Form
  | .mk _ _ f _ _ _ _ _ _ _ => f

def ElemDesc.isMany : ElemDesc → Bool
  | .mk _ _ _ m _ _ _ _ _ _ => m

def ElemDesc.isNillable : ElemDesc → Bool
  | .mk _ _ _ _ n _ _ _ _ _ => n

def ElemDesc.isSimple : ElemDesc → Bool
  | .mk _ _ _ _ _ s _ _ _ _ => s

def ElemDesc.jsType : ElemDesc → Option JsTy
  | .mk _ _ _ _ _ _ j _ _ _ => j

def ElemDesc.elements : ElemDesc → List ElemDesc
  | .mk _ _ _ _ _ _ _ es _ _ => es

def ElemDesc.attributes : ElemDesc → List AttrDesc
  | .mk _ _ _ _ _ _ _ _ as _ => as

def ElemDesc.inheritanceExt : ElemDesc → Option (List (String × List ElemDesc))
  | .mk _ _ _ _ _ _ _ _ _ i => i

/-- Replace the `elements` list of an element descriptor (the field
assignment `descriptor.elements = ...` of the source's xsi:type
extension step). -/
def ElemDesc.withElements (d : ElemDesc) (es : List ElemDesc) : ElemDesc :=
  match d with
  | .mk q t f m n s j _ as i => .mk q t f m n s j es as i

/-- `TypeDescriptor`: ordered element descriptors plus attribute
descriptors (the restriction rule lives on `TypeRef` where the
serializer reads it). -/
structure TypeDesc where
  elements : List ElemDesc := []
  attributes : List AttrDesc := []

/-- The tagged descriptor variant the serializer dispatches on
(`instanceof` checks in the source). -/
inductive Descriptor where
  | attribute (a : AttrDesc)
  | element (e : ElemDesc)
  | type (t : TypeDesc)

/-- The element descriptors a descriptor exposes
(`descriptor.elements`; an attribute descriptor has none). -/
def Descriptor.elementsOf : Option Descriptor → List ElemDesc
  | some (.element e) => e.elements
  | some (.type t) => t.elements
  | _ => []

/-- The attribute descriptors a descriptor exposes. -/
def Descriptor.attributesOf : Option Descriptor → List AttrDesc
  | some (.element e) => e.attributes
  | some (.type t) => t.attributes
  | _ => []

/-- The declared type reference (`descriptor.type`) of a descriptor. -/
def Descriptor.typeRefOf : Option Descriptor → Option TypeRef
  | some (.element e) => e.typeRef
  | some (.attribute a) => a.typeRef
  | _ => none

/-- The declared JS conversion type (`descriptor.jsType`). -/
def Descriptor.jsTypeOf : Option Descriptor → Option JsTy
  | some (.element e) => e.jsType
  | some (.attribute a) => a.jsType
  | _ => none

/-- Modelled from the spec (§4.4): `descriptor.findElement(name)` of
the external descriptor module asks a descriptor for the child element
descriptor with the given local name. -/
def Descriptor.findElement (d : Descriptor) (name : String) : Option ElemDesc :=
  (Descriptor.elementsOf (some d)).find? (fun e => e.qname.name == name)

/-- Modelled from the spec (§4.4): `descriptor.findAttribute(name)`
finds an attribute descriptor by local name. -/
def Descriptor.findAttribute (d : Descriptor) (name : String) : Option AttrDesc :=
  (Descriptor.attributesOf (some d)).find? (fun a => a.qname.name == name)

/-! ## Schemas, options and the handler -/

/-- A named simple type of a schema: the optional restriction rule and
the descriptor its `describe` produces (`undefined` when the type is
not described). -/
structure SimpleTypeEntry where
  restriction : Option (JValue → JValue) := none
  described : Option TypeDesc := none

/-- A named complex type of a schema, reduced to the descriptor its
`describe` produces. -/
structure ComplexTypeEntry where
  described : Option TypeDesc := none

/-- One schema, keyed by namespace URI in the handler. -/
structure Schema where
  simpleTypes : List (String × SimpleTypeEntry) := []
  complexTypes : List (String × ComplexTypeEntry) := []

/-- The recognized options with their constructor defaults. -/
structure Options where
  valueKey : String := "$value"
  xmlKey : String := "$xml"
  attributesKey : String := "$attributes"
  xsiTypeKey : String := "$xsiType"
  enforceRestrictions : Bool := false
  ignoreUnknownProperties : Bool := false

/-- An `XMLHandler` instance: schema set plus options. -/
structure Handler where
  schemas : List (String × Schema) := []
  options : Options := {}

/-- The handler built by `new XMLHandler()` with no arguments. -/
def defaultHandler : Handler := {}

/-! ## Typed value coercion -/

/-- `parseValue(text, descriptor)`: non-strings pass through; with
declared JS type `Date` a 10-character string passes through unchanged
and any other string is parsed into a date value (`new Date(text)` of
the runtime, kept abstract as `JValue.date text`; the local-zone
assumption for zone-less text lives inside that external parse); with
`Boolean`, `"true"` and `"1"` map to true and everything else to
false; any other declared conversion function applies directly; with
no declared type the text passes through. -/
def parseValue (text : JValue) (descOpt : Option Descriptor) : JValue :=
  match text with
  | .str s =>
    match Descriptor.jsTypeOf descOpt with
    | some .date => if s.length = 10 then .str s else .date s
    | some .boolean => if s = "true" ∨ s = "1" then .bool true else .bool false
    | some (.fn f) => f s
    | none => .str s
  | t => t

/-- `toXmlDate`: a validated `YYYY-MM-DD` string passes through. -/
def toXmlDate (v : JValue) : JValue := v

/-- The ISO-8601 rendering `new Date(v).toISOString()` of the external
runtime, kept abstract: the date's stored text stands for its ISO
form. -/
def jsNewDateISO (v : JValue) : String := jsToStr v

/-- Split a character list at every occurrence of one character. -/
def splitOnChar (c : Char) : List Char → List (List Char)
  | [] => [[]]
  | h :: t =>
    let r := splitOnChar c t
    if h == c then [] :: r
    else
      match r with
      | [] => [[h]]
      | x :: xs => (h :: x) :: xs

/-- `toXmlTime`: time-of-day portion of the ISO-8601 instant
(`isoStr.split('T')[1]`, the JS `undefined` when there is no `T`). -/
def toXmlTime (v : JValue) : JValue :=
  match (splitOnChar 'T' (jsNewDateISO v).data).get? 1 with
  | some t => .str (strOfChars t)
  | none => JValue.undef

/-- `toXmlDateTime`: the full ISO-8601 instant. -/
def toXmlDateTime (v : JValue) : JValue := .str (jsNewDateISO v)

/-- `toXmlDateOrTime(descriptor, val)`: formatting dispatch on the
declared type name; no declared type, or a `null` value, passes
through. -/
def toXmlDateOrTime (descOpt : Option Descriptor) (v : JValue) : JValue :=
  match Descriptor.typeRefOf descOpt with
  | none => v
  | some tr =>
    if v = .null then v
    else if tr.name = "date" then toXmlDate v
    else if tr.name = "time" then toXmlTime v
    else if tr.name = "dateTime" then toXmlDateTime v
    else v

/-! ## XML tree model (the external tree builder, modelled from §6) -/

mutual

/-- Modelled from the spec (§6 tree builder): one piece of element
content — a child element (with its attributes and content), a text
node, a CDATA section or verbatim raw XML. -/
inductive XmlContent where
  | element (name : String) (attributes : List (String × String)) (children : XmlContents)
  | text (s : String)
  | cdata (s : String)
  | raw (s : String)

/-- Ordered element content. -/
inductive XmlContents where
  | nil
  | cons (head : XmlContent) (tail : XmlContents)

end

/-- A node under construction: its attributes and content so far (the
serializer appends to the node it was handed; the document root is the
node with which a call starts). -/
structure XmlBody where
  attributes : List (String × String) := []
  children : XmlContents := .nil

def XmlContents.append : XmlContents → XmlContents → XmlContents
  | .nil, ys => ys
  | .cons x xs, ys => .cons x (XmlContents.append xs ys)

/-- Association-list update used for attribute maps: an existing name
is overwritten in place, a new one appended (the tree builder's
`attribute(name, value)`). -/
def setAssoc : List (String × String) → String → String → List (String × String)
  | [], k, v => [(k, v)]
  | (k', v') :: rest, k, v =>
    if k' == k then (k, v) :: rest else (k', v') :: setAssoc rest k v

/-- Modelled from the spec (§6): `attribute(name, value)` on a node;
the builder stringifies the value when rendering. -/
def XmlBody.setAttr (b : XmlBody) (k v : String) : XmlBody :=
  { b with attributes := setAssoc b.attributes k v }

/-- Append one finished piece of content to a node. -/
def XmlBody.addChild (b : XmlBody) (c : XmlContent) : XmlBody :=
  { b with children := b.children.append (.cons c .nil) }

/-- Modelled from the spec (§6): the content created by
`element(name, text)` for the second argument — `null`/`undefined`
create no text; the builder's overload that reads an object argument
as an attribute map is not reachable from the settled claims and is
embedded as empty content; anything else becomes a text node of the
stringified value. -/
def elementTextChildren (v : JValue) : XmlContents :=
  match v with
  | .null => .nil
  | .undef => .nil
  | .obj _ _ => .nil
  | .arr _ => .nil
  | v => .cons (.text (jsToStr v)) .nil

def isArr : JValue → Bool
  | .arr _ => true
  | _ => false

def isDate : JValue → Bool
  | .date _ => true
  | _ => false

/-- `val !== null && typeof val === 'object'`. -/
def jsIsObjectNonNull : JValue → Bool
  | .arr _ => true
  | .obj _ _ => true
  | .date _ => true
  | _ => false

/-! ## Serializer helpers -/

/-- The module-level `declareNamespace(nsContext, node, prefix, nsURI)`
helper: declares through the scope stack and, when a node is supplied
and a new mapping was created, sets the corresponding `xmlns:prefix`
attribute on it; reports no mapping (the source's `false`) when the
URI was already visible. -/
def declareNamespaceOn (ns : NsContext) (node : Option XmlBody)
    (p : Option String) (uri : Option String) :
    NsContext × Option XmlBody × Option NsBinding :=
  let (ns', mapping) := ns.declareNamespace p uri
  match mapping with
  | none => (ns', node, none)
  | some m =>
    match node with
    | some b => (ns', some (b.setAttr ("xmlns:" ++ m.pfx) m.uri), some m)
    | none => (ns', none, some m)

/-- The `AttributeDescriptor` branch of `jsonToXml` (lines 45-58):
format the value, then set either a bare attribute (unqualified form)
or a prefixed one after declaring/resolving the attribute's namespace
in the enclosing scope.  `addAttributes` reaches this same branch
through its recursive `jsonToXml` call. -/
def serializeAttribute (node : XmlBody) (ns : NsContext) (a : AttrDesc) (val : JValue) :
    XmlBody × NsContext :=
  let v := toXmlDateOrTime (some (.attribute a)) val
  let name := a.qname.name
  if a.form = .unqualified then
    (node.setAttr name (jsToStr v), ns)
  else
    let (ns', node', mapping) := declareNamespaceOn ns (some node) a.qname.pfx a.qname.nsURI
    let px := match mapping with
      | some m => some m.pfx
      | none => a.qname.pfx
    let attrName := match px with
      | some pq => pq ++ ":" ++ name
      | none => name
    (((node').getD node).setAttr attrName (jsToStr v), ns')

/-- Last-wins name lookup mirroring the `elements[name] = d` table
construction of `mapObject` (a later duplicate overwrites). -/
def findElemTable (es : List ElemDesc) (name : String) : Option ElemDesc :=
  es.reverse.find? (fun e => e.qname.name == name)

/-- Last-wins lookup of the attribute-descriptor table. -/
def findAttrTable (as : List AttrDesc) (name : String) : Option AttrDesc :=
  as.reverse.find? (fun a => a.qname.name == name)

/-- The value of `jsGet v "xmlns"` as an optional URI. -/
def strOptOf : JValue → Option String
  | .str s => some s
  | _ => none

/-- Parse an `$xsiType` attribute value: an object with a `type` field
uses the two-argument qualified-name parse with its `xmlns`, anything
else parses the stringified value. -/
def parseXsiTypeValue (child : JValue) : ParsedQName :=
  if jsTypeofObject child && !(jsGet child "type" == JValue.undef) then
    qnameParse2 (jsToStr (jsGet child "type")) (strOptOf (jsGet child "xmlns"))
  else qnameParse (jsToStr child)

/-- `XMLHandler.getXsiType(descriptor, attrs)`: find an `$xsiType`
entry in an attribute map and look up the described descriptor of the
named type among the handler's schemas (the source's unused
`descriptor` parameter is dropped). -/
def getXsiTypeGo (h : Handler) : JProps → Option TypeDesc
  | .nil => none
  | .cons p child rest =>
    if p == h.options.xsiTypeKey then
      let xt := parseXsiTypeValue child
      match xt.nsURI with
      | none => none
      | some u =>
        match h.schemas.lookup u with
        | none => none
        | some schema =>
          match schema.complexTypes.lookup xt.name with
          | some ce => ce.described
          | none =>
            match schema.simpleTypes.lookup xt.name with
            | some se => se.described
            | none => none
    else getXsiTypeGo h rest

def getXsiType (h : Handler) (attrs : JValue) : Option TypeDesc :=
  match attrs with
  | .obj _ props => getXsiTypeGo h props
  | _ => none

/-- `indexOf` with the source's `-1 → order.length` normalization
(`List.indexOf` already returns the length for an absent element). -/
def jsIndexOrLen (order : List String) (n : String) : Nat :=
  order.indexOf n

/-- The inner `compare(n1, n2, order)` of `_sortKeys`. -/
def compareIdx (order : List String) (n1 n2 : String) : Int :=
  (jsIndexOrLen order n1 : Int) - (jsIndexOrLen order n2 : Int)

/-- The full comparator of `_sortKeys`: by declared-element position
first, ties broken by position among the original keys. -/
def sortCompare (keys order : List String) (n1 n2 : String) : Int :=
  let r := compareIdx order n1 n2
  if r = 0 then compareIdx keys n1 n2 else r

/-- `XMLHandler._sortKeys` on the key list: the JS stable sort under
the comparator (the comparator never ties on distinct keys, so any
correct sort realizes it; insertion sort is used here). -/
def sortKeysList (keys order : List String) : List String :=
  List.insertionSort (fun a b => sortCompare keys order a b ≤ 0) keys

/-- `XMLHandler._sortKeys(val, elementOrder)`. -/
def sortKeysOf (val : JValue) (order : List String) : List String :=
  match val with
  | .obj _ fs => sortKeysList fs.keys order
  | _ => []

/-- The restriction-enforcement step of the serializer (lines
124-140): with `enforceRestrictions` set and a declared type carrying
a restriction rule (from the global schema or embedded anonymously),
apply `enforce` to the value. -/
def enforceRestrictionsStep (h : Handler) (e : ElemDesc) (val : JValue) : JValue :=
  if h.options.enforceRestrictions then
    match e.typeRef with
    | none => val
    | some tr =>
      match h.schemas.lookup tr.nsURI with
      | none => val
      | some schema =>
        let restr : Option (JValue → JValue) :=
          match schema.simpleTypes.lookup tr.name with
          | some entry => entry.restriction
          | none => tr.anonymousRestriction
        match restr with
        | some enf => enf val
        | none => val
  else val

/-- The xsi:type inheritance-extension step of the element branch
(lines 173-194): walking the value's attributes-key map, an
`$xsiType` entry whose subtype name is known to the descriptor's
inheritance table appends the extension's element descriptors to the
descriptor's `elements` list — this reassignment mutates the
descriptor in the source and is embedded by threading the descriptor
through the call. -/
def applyInheritanceGo (h : Handler) : ElemDesc → JProps → ElemDesc
  | e, .nil => e
  | e, .cons k child rest =>
    let e' :=
      if k == h.options.xsiTypeKey then
        match e.inheritanceExt with
        | some inh =>
          match jsGet child "type" with
          | .str t =>
            match inh.lookup t with
            | some ext => e.withElements (e.elements ++ ext)
            | none => e
          | _ => e
        | none => e
      else e
    applyInheritanceGo h e' rest

def applyInheritance (h : Handler) (e : ElemDesc) (val : JValue) : ElemDesc :=
  if !(jsIsNullish val) then
    match jsGet val h.options.attributesKey with
    | .obj _ aprops => applyInheritanceGo h e aprops
    | _ => e
  else e

/-- `XMLHandler.addAttributes(node, nsContext, descriptor, val,
attrs)`: serialize each entry of an attributes-key map — an
`$xsiType` entry declares the XML-Schema-Instance namespace plus the
target type's namespace and emits a prefixed `xsi:type` attribute; any
other entry resolves its attribute descriptor by name (synthesizing an
unqualified one for unknown names unless configured to ignore them)
and reaches the attribute branch of `jsonToXml`, embedded directly as
`serializeAttribute`. -/
def addAttributesGo (h : Handler) (descOpt : Option Descriptor) :
    JProps → XmlBody → NsContext → XmlBody × NsContext
  | .nil, node, ns => (node, ns)
  | .cons p child rest, node, ns =>
    if p == h.options.xsiTypeKey then
      let xt := parseXsiTypeValue child
      let (ns1, node1opt, _) := declareNamespaceOn ns (some node) (some "xsi") (some xsiURI)
      let node1 := node1opt.getD node
      let (ns2, node2opt, mapping) := declareNamespaceOn ns1 (some node1) xt.pfx xt.nsURI
      let node2 := node2opt.getD node1
      let px := match mapping with
        | some m => some m.pfx
        | none => xt.pfx
      let node3 := node2.setAttr "xsi:type"
        (match px with
         | some q => q ++ ":" ++ xt.name
         | none => xt.name)
      addAttributesGo h descOpt rest node3 ns2
    else
      let childDesc := findAttrTable (Descriptor.attributesOf descOpt) p
      match childDesc with
      | none =>
        if h.options.ignoreUnknownProperties then addAttributesGo h descOpt rest node ns
        else
          let synth : AttrDesc :=
            { qname := qnameParse p, typeRef := none, form := .unqualified, jsType := none }
          let (node1, ns1) := serializeAttribute node ns synth child
          addAttributesGo h descOpt rest node1 ns1
      | some a =>
        let (node1, ns1) := serializeAttribute node ns a child
        addAttributesGo h descOpt rest node1 ns1

def addAttributes (h : Handler) (node : XmlBody) (ns : NsContext)
    (descOpt : Option Descriptor) (_val : JValue) (attrs : JValue) : XmlBody × NsContext :=
  match attrs with
  | .obj _ props => addAttributesGo h descOpt props node ns
  | _ => (node, ns)

/-- Replace the first entry with the given local name.  Used on the
reversed list to mirror the last-wins element table of `mapObject`. -/
def replFirstByName : List ElemDesc → String → ElemDesc → List ElemDesc
  | [], _, _ => []
  | x :: t, name, e' =>
    if x.qname.name == name then e' :: t else x :: replFirstByName t name e'

/-- Replace the last entry with the given local name — the entry the
last-wins element table of `mapObject` hands to the child recursion. -/
def replaceLastByName (es : List ElemDesc) (name : String) (e' : ElemDesc) : List ElemDesc :=
  (replFirstByName es.reverse name e').reverse

/-- Write a child recursion's (possibly extended) element descriptor
back into the descriptor whose element table produced it: the source's
`descriptor.elements = descriptor.elements.concat(...)` (line 185)
reassigns a field of the shared entry object, so the parent's
`elements` list sees the change through the alias. -/
def Descriptor.withReplacedElem : Option Descriptor → String → ElemDesc → Option Descriptor
  | some (.element e), name, e' =>
    some (.element (e.withElements (replaceLastByName e.elements name e')))
  | some (.type t), name, e' =>
    some (.type { t with elements := replaceLastByName t.elements name e' })
  | d, _, _ => d

/-! ## The serializer (`XMLHandler.jsonToXml` / `mapObject`)

The recursion is made structural on an explicit fuel argument
(decremented at every cross-call); with enough fuel the fueled
functions compute exactly the source's recursion, and every concrete
evaluation below supplies enough fuel.  Heap mutation of descriptors
(the xsi:type extension reassigns `descriptor.elements`) is embedded
by returning the descriptor a call leaves behind; a child descriptor
handed out by `mapObject`'s element table is a shared object in the
source, so the property loop writes the descriptor each child
recursion returns back into the entry it came from, and the mutation
surfaces in the parent's descriptor tree.  A `getXsiType` subtype
substitution redirects the loop's mutations to the (schema-owned) type
descriptor, so the caller's own descriptor comes back unchanged. -/

/-- The descriptor object a finished element call leaves behind, seen
as an element descriptor: the shared object is only ever an element
descriptor here, any other shape leaves the original in place. -/
def elemOf (d : Option Descriptor) (e : ElemDesc) : ElemDesc :=
  match d with
  | some (.element x) => x
  | _ => e

mutual

/-- `XMLHandler.jsonToXml(node, nsContext, descriptor, val)` (lines
33-224), on an already-initialized node and namespace context.
Returns the node with the serialized content appended, the namespace
context, and the descriptor as it stands after the call (the xsi:type
extension step mutates it in the source). -/
def jsonToXmlF (h : Handler) : Nat → XmlBody → NsContext → Option Descriptor → JValue →
    XmlBody × NsContext × Option Descriptor
  | 0, node, ns, d, _ => (node, ns, d)
  | fuel + 1, node, ns, descOpt, val =>
    match descOpt with
    | some (.attribute a) =>
      let (node', ns') := serializeAttribute node ns a val
      (node', ns', some (.attribute a))
    | some (.element e) =>
      match val, e.isMany with
      | .arr items, true =>
        -- isMany with an array value: serialize once per entry under
        -- the same (threaded) descriptor, then return.
        let r := jsonToXmlManyF h fuel node ns e items
        (r.1, r.2.1, some (.element r.2.2))
      | val, _ =>
        let r := elementBranchF h fuel node ns e val
        (r.1, r.2.1, some (.element r.2.2))
    | _ =>
      -- descriptor null/undefined or a TypeDescriptor (lines 218-221)
      let r := mapObjectF h fuel node ns descOpt val .undef
      (r.1, r.2.1, r.2.2)
termination_by structural f _ _ _ _ => f

/-- The `isMany` loop of the element branch (lines 64-71): serialize
each array entry under the same descriptor object, threading the
descriptor (the source mutates the shared object across iterations). -/
def jsonToXmlManyF (h : Handler) : Nat → XmlBody → NsContext → ElemDesc → JItems →
    XmlBody × NsContext × ElemDesc
  | 0, node, ns, e, _ => (node, ns, e)
  | _ + 1, node, ns, e, .nil => (node, ns, e)
  | fuel + 1, node, ns, e, .cons v rest =>
    let (node', ns', dOpt) := jsonToXmlF h fuel node ns (some (.element e)) v
    jsonToXmlManyF h fuel node' ns' (elemOf dOpt e) rest
termination_by structural f _ _ _ _ => f


/-- The single-value element branch of `jsonToXml` (lines 72-215):
extract the attributes-key/value-key of an object value, push a
namespace scope and resolve the element name, build the element
content (CDATA literal, raw `$xml` injection, or plain content with
optional restriction enforcement and date/time formatting), earmark
the xmlns declaration, set `xsi:nil` for an absent value under a
nillable descriptor, then either finish a simple element (attaching
its attribute map), set terminal scalar text, or map the object's
properties onto the declared children — applying the xsi:type
inheritance extension to the descriptor first.  Returns the node with
the element appended and the descriptor as the call leaves it. -/
def elementBranchF (h : Handler) : Nat → XmlBody → NsContext → ElemDesc → JValue →
    XmlBody × NsContext × ElemDesc
  | 0, node, ns, e, _ => (node, ns, e)
  | fuel + 1, node, ns, e, val =>
        -- extract $attributes / $value from an object value
        let attrs : JValue :=
          if jsIsObjectNonNull val && !(jsGet val h.options.attributesKey == JValue.undef)
          then jsGet val h.options.attributesKey
          else .null
        let val1 :=
          if jsIsObjectNonNull val && !(jsGet val h.options.valueKey == JValue.undef)
          then jsGet val h.options.valueKey
          else val
        -- push a namespace scope and resolve the element name
        let ns1 := ns.pushContext
        let (ns2, elementName, xmlnsAttr) :=
          match e.form with
          | .unqualified => (ns1, e.qname.name, (none : Option String))
          | .qualified =>
            let mapping := ns1.getPrefixMapping e.qname.nsURI
            let newlyDeclared :=
              match mapping with
              | none => true
              | some m => !m.declared
            let (nsA, mapping') :=
              if newlyDeclared then ns1.declareNamespace e.qname.pfx e.qname.nsURI
              else (ns1, mapping)
            let px := match mapping' with
              | some m => some m.pfx
              | none => e.qname.pfx
            let elementName := match px with
              | some p => p ++ ":" ++ e.qname.name
              | none => e.qname.name
            let xmlnsAttr :=
              if newlyDeclared then
                some (match px with
                      | some p => "xmlns:" ++ p
                      | none => "xmlns")
              else none
            (nsA, elementName, xmlnsAttr)
        -- create the element content (CDATA literal / raw $xml / plain)
        let (elBody, val2) :=
          if e.isSimple && containsSub (jsToStr val1) "<![CDATA" then
            let stripped := removeFirst (removeFirst (jsToStr val1) "<![CDATA[") "]]>"
            (({ } : XmlBody).addChild (.cdata stripped), JValue.str stripped)
          else if e.isSimple && !(jsIsNullish val1)
              && !(jsGet val1 h.options.xmlKey == JValue.undef) then
            let vx := toXmlDateOrTime (some (.element e)) (jsGet val1 h.options.xmlKey)
            (({ } : XmlBody).addChild (.raw (jsToStr vx)), vx)
          else
            let vr := enforceRestrictionsStep h e val1
            let v2 := toXmlDateOrTime (some (.element e)) vr
            (if e.isSimple then ({ children := elementTextChildren v2 } : XmlBody)
             else ({ } : XmlBody), v2)
        -- earmarked xmlns declaration
        let elBody1 :=
          match xmlnsAttr, e.qname.nsURI with
          | some xa, some u => elBody.setAttr xa u
          | _, _ => elBody
        -- xsi:nil for an absent value under a nillable descriptor
        let (ns3, elBody2) :=
          if jsIsNullish val2 then
            if e.isNillable then
              let (ns', el', _) := declareNamespaceOn ns2 (some elBody1) (some "xsi") (some xsiURI)
              (ns', (el'.getD elBody1).setAttr "xsi:nil" "true")
            else (ns2, elBody1)
          else (ns2, elBody1)
        if e.isSimple then
          let bn : XmlBody × NsContext :=
            if !(attrs == JValue.null) && jsTypeofObject attrs then
              addAttributes h elBody2 ns3 (some (.element e)) val2 attrs
            else (elBody2, ns3)
          (node.addChild (.element elementName bn.1.attributes bn.1.children),
           bn.2.popContext, e)
        else
          -- xsi:type extension (mutates the descriptor's elements list)
          let e1 := applyInheritance h e val2
          let bn : XmlBody × NsContext × Option Descriptor :=
            if !(jsIsNullish val2) && (!(jsTypeofObject val2) || isDate val2) then
              -- terminal scalar or date: text content plus attributes
              let val3 := toXmlDateOrTime (some (.element e1)) val2
              let elBody3 := elBody2.addChild (.text (jsToStr val3))
              if !(attrs == JValue.null) then
                let pr := addAttributes h elBody3 ns3 (some (.element e1)) val3 attrs
                (pr.1, pr.2, some (.element e1))
              else (elBody3, ns3, some (.element e1))
            else mapObjectF h fuel elBody2 ns3 (some (.element e1)) val2 attrs
          -- the property loop mutated the shared descriptor through its
          -- element-table aliases: the branch leaves that object behind
          (node.addChild (.element elementName bn.1.attributes bn.1.children),
           bn.2.1.popContext, elemOf bn.2.2 e1)
termination_by structural f _ _ _ _ => f



/-- `XMLHandler.mapObject(node, nsContext, descriptor, val, attrs)`
(lines 287-342): map a JSON object's properties onto the declared
children after a possible xsi:type substitution; array values skip the
property loop; finally serialize the attribute map. -/
def mapObjectF (h : Handler) : Nat → XmlBody → NsContext → Option Descriptor → JValue → JValue →
    XmlBody × NsContext × Option Descriptor
  | 0, node, ns, descOpt, _, _ => (node, ns, descOpt)
  | fuel + 1, node, ns, descOpt, val, attrs =>
    if jsIsNullish val then (node, ns, descOpt)
    else if !(jsTypeofObject val) || isDate val then
      let v := toXmlDateOrTime descOpt val
      (node.addChild (.text (jsToStr v)), ns, descOpt)
    else
      let subst := getXsiType h attrs
      let descOpt1 :=
        match subst with
        | some t => some (Descriptor.type t)
        | none => descOpt
      let elementOrder := (Descriptor.elementsOf descOpt1).map (fun e => e.qname.name)
      let r :=
        if isArr val then (node, ns, descOpt1)
        else mapFieldsF h fuel node ns descOpt1 val (sortKeysOf val elementOrder)
      let pr := addAttributes h r.1 r.2.1 r.2.2 val attrs
      -- a subtype substitution redirected the loop's mutations to the
      -- schema's type descriptor: the caller's descriptor is unchanged
      (pr.1, pr.2, match subst with | some _ => descOpt | none => r.2.2)
termination_by structural f _ _ _ _ _ => f

/-- The property loop of `mapObject` (lines 320-337): skip the
attributes-key; find the child descriptor among declared elements then
attributes; synthesize an ad hoc unqualified element descriptor for an
unknown property (repeatable when the value is an array) unless
configured to ignore unknowns; recurse. -/
def mapFieldsF (h : Handler) : Nat → XmlBody → NsContext → Option Descriptor → JValue →
    List String → XmlBody × NsContext × Option Descriptor
  | 0, node, ns, descOpt, _, _ => (node, ns, descOpt)
  | _ + 1, node, ns, descOpt, _, [] => (node, ns, descOpt)
  | fuel + 1, node, ns, descOpt, val, p :: rest =>
    if p == h.options.attributesKey then mapFieldsF h fuel node ns descOpt val rest
    else
      let child := jsGet val p
      match findElemTable (Descriptor.elementsOf descOpt) p with
      | some e =>
        let r := jsonToXmlF h fuel node ns (some (.element e)) child
        -- the child call mutated the shared entry object in place:
        -- write the descriptor it leaves behind back into the table
        let descOpt1 :=
          match r.2.2 with
          | some (.element e') => Descriptor.withReplacedElem descOpt p e'
          | _ => descOpt
        mapFieldsF h fuel r.1 r.2.1 descOpt1 val rest
      | none =>
        match findAttrTable (Descriptor.attributesOf descOpt) p with
        | some a =>
          let r := jsonToXmlF h fuel node ns (some (.attribute a)) child
          mapFieldsF h fuel r.1 r.2.1 descOpt val rest
        | none =>
          if h.options.ignoreUnknownProperties then
            mapFieldsF h fuel node ns descOpt val rest
          else
            -- a synthesized descriptor is a fresh object: mutations to
            -- it never reach the parent's descriptor tree
            let synth : ElemDesc :=
              .mk (qnameParse p) none .unqualified (isArr child) false false none [] [] none
            let r := jsonToXmlF h fuel node ns (some (.element synth)) child
            mapFieldsF h fuel r.1 r.2.1 descOpt val rest
termination_by structural f _ _ _ _ _ => f

end

/-- The public `jsonToXml` entry: a missing node starts a fresh
document, a missing namespace context starts a fresh scope stack. -/
def XMLHandler.jsonToXml (h : Handler) (fuel : Nat) (node : Option XmlBody)
    (ns : Option NsContext) (descOpt : Option Descriptor) (val : JValue) :
    XmlBody × NsContext × Option Descriptor :=
  jsonToXmlF h fuel (node.getD {}) (ns.getD freshNs) descOpt val

/-! ## SAX events and the rendered-tree event stream -/

/-- Modelled from the spec (§6 tokenizer): the token events the
deserializer consumes.  Attribute maps arrive with the open tag. -/
inductive SaxEvent where
  | openTag (name : String) (attributes : List (String × String))
  | closeTag (name : String)
  | text (s : String)
  | cdata (s : String)
deriving DecidableEq

mutual

/-- Modelled from the spec (§6): the composition of the external tree
renderer and the external tokenizer — rendering a built tree and
tokenizing the rendered bytes yields the tree's own open/text/cdata/
close events (entity escaping of text round-trips through the two).
A tree containing verbatim raw XML would need the real tokenizer, so
it yields `none`. -/
def XmlContent.eventsOf : XmlContent → Option (List SaxEvent)
  | .element name attrs children =>
    match XmlContents.eventsOf children with
    | some evs => some ([SaxEvent.openTag name attrs] ++ evs ++ [SaxEvent.closeTag name])
    | none => none
  | .text s => some [SaxEvent.text s]
  | .cdata s => some [SaxEvent.cdata s]
  | .raw _ => none

def XmlContents.eventsOf : XmlContents → Option (List SaxEvent)
  | .nil => some []
  | .cons c rest =>
    match XmlContent.eventsOf c, XmlContents.eventsOf rest with
    | some e1, some e2 => some (e1 ++ e2)
    | _, _ => none

end

/-- The event stream of a serialized document root. -/
def XmlBody.eventsOf (b : XmlBody) : Option (List SaxEvent) :=
  XmlContents.eventsOf b.children

/-! ## The deserializer (`XMLHandler.xmlToJson`) -/

/-- `/^xmlns:|^xmlns$/`: a namespace-declaring attribute name. -/
def isXmlnsAttr (a : String) : Bool :=
  a == "xmlns" || "xmlns:".data.isPrefixOf a.data

/-- The declared prefix of a namespace-declaring attribute
(`a.substring(6)`, the empty prefix for the default declaration). -/
def xmlnsPrefixOf (a : String) : String :=
  if a == "xmlns" then "" else strOfChars (a.data.drop 6)

/-- One frame of the deserializer stack: local name, the object under
construction (`undef` until content arrives, `null` after
`xsi:nil="true"`), the matching child descriptor, and the `id`
attribute if any. -/
structure Frame where
  name : Option String := none
  object : JValue := .undef
  descr : Option Descriptor := none
  idAttr : Option String := none

/-- One multiref registry slot: the pending merge sites recorded for
`href="#id"` occurrences (the source stores `{parent, key, object}`;
`parent` and `key` are never read by the final merge, which works
through the placeholder object — identified here by its site tag —
so the embedding records the key and the site), plus the resolved
object (`null` until the element carrying the id closes). -/
structure RefEntry where
  hrefs : List (String × Nat) := []
  object : JValue := .null

/-- The per-call deserializer state. -/
structure DState where
  stack : List Frame
  refs : List (String × RefEntry) := []
  nextSite : Nat := 0
  ns : NsContext := freshNs

/-- Reserve a registry slot for an id (`refs[id] = {hrefs: [],
object: null}` when absent). -/
def refsEnsure (refs : List (String × RefEntry)) (id : String) : List (String × RefEntry) :=
  match refs.lookup id with
  | some _ => refs
  | none => refs ++ [(id, {})]

/-- Record a pending merge site against an id. -/
def refsAddHref (refs : List (String × RefEntry)) (id key : String) (site : Nat) :
    List (String × RefEntry) :=
  refs.map (fun e => if e.1 == id then (e.1, { e.2 with hrefs := e.2.hrefs ++ [(key, site)] }) else e)

/-- Store the finished object of the element that declared an id. -/
def refsSetObject (refs : List (String × RefEntry)) (id : String) (obj : JValue) :
    List (String × RefEntry) :=
  refs.map (fun e => if e.1 == id then (e.1, { e.2 with object := obj }) else e)

/-- One step of the regular-attribute loop of `onopentag` (lines
581-620), after namespace declarations were registered.  The
accumulator is the object mark (`undef`, or `null` after
`xsi:nil="true"`) and the collected attribute map.  An `xsi:nil`
attribute records no entry; `xsi:type` records a two-field
`{type, xmlns}` marker under the xsi-type key; any other attribute is
stored raw under its local name (the source computes
`parseValue(attrs[a], attrDescriptor)` here and then stores the raw
text, leaving that coerced value unused). -/
def regularAttrStep (h : Handler) (ns : NsContext) (acc : JValue × Option JProps)
    (a : String × String) : JValue × Option JProps :=
  let (obj, ea) := acc
  if isXmlnsAttr a.1 then acc
  else
    let qn := qnameParse a.1
    let isXsiNs :=
      match qn.pfx with
      | some p => ns.getNamespaceURI p == some xsiURI
      | none => false
    if isXsiNs && qn.name == "nil" then
      (if a.2 == "true" then (JValue.null, ea) else (obj, ea))
    else if isXsiNs && qn.name == "type" then
      let xt := qnameParse a.2
      let xsiXmlns : JValue :=
        match xt.pfx with
        | some p =>
          match ns.getNamespaceURI p with
          | some u => .str u
          | none => .null
        | none => .null
      let marker : JValue :=
        .obj none (.cons "type" (.str xt.name) (.cons "xmlns" xsiXmlns .nil))
      (obj, some ((ea.getD .nil).set h.options.xsiTypeKey marker))
    else
      (obj, some ((ea.getD .nil).set qn.name (.str a.2)))

/-- `p.onopentag` (lines 563-651): push a namespace scope, register
namespace declarations, run the attribute loop, seed the element's
object from the collected attribute map (overriding a `null` mark),
record `href` merge sites and reserve `id` slots, and push the new
frame with the child descriptor found by local name on the parent's
descriptor. -/
def onOpenTag (h : Handler) (st : DState) (name : String)
    (attributes : List (String × String)) : DState :=
  let top := st.stack.headD {}
  let ns1 := attributes.foldl
    (fun ns (a : String × String) =>
      if isXmlnsAttr a.1 then ns.addNamespace (xmlnsPrefixOf a.1) a.2 else ns)
    st.ns.pushContext
  let (objMark, elementAttributes) :=
    attributes.foldl (regularAttrStep h ns1) (JValue.undef, none)
  let obj1 : JValue :=
    match elementAttributes with
    | some ea => .obj none (JProps.set .nil h.options.attributesKey (.obj none ea))
    | none => objMark
  let elementLocal := (qnameParse name).name
  let (refs1, obj2, nextSite1) :=
    match attributes.lookup "href" with
    | some hv =>
      let id := strDropOne hv
      let refs' := refsEnsure st.refs id
      let site := st.nextSite
      let obj' := match obj1 with
        | .obj _ fs => JValue.obj (some site) fs
        | v => v
      (refsAddHref refs' id elementLocal site, obj', st.nextSite + 1)
    | none => (st.refs, obj1, st.nextSite)
  let idOpt := attributes.lookup "id"
  let refs2 :=
    match idOpt with
    | some idv => refsEnsure refs1 idv
    | none => refs1
  let childDesc : Option Descriptor :=
    match top.descr with
    | some d => (d.findElement elementLocal).map Descriptor.element
    | none => none
  { stack := { name := some elementLocal, object := obj2, descr := childDesc,
               idAttr := idOpt } :: st.stack,
    refs := refs2, nextSite := nextSite1, ns := ns1 }

/-- Append one element to a JS array (`val.push(x)`). -/
def JItems.push : JItems → JValue → JItems
  | .nil, x => .cons x .nil
  | .cons v t, x => .cons v (JItems.push t x)

def Descriptor.isManyOf : Option Descriptor → Bool
  | some (.element e) => e.isMany
  | _ => false

/-- `p.onclosetag` (lines 653-681): pop a namespace scope and the
current frame; seed an uninitialized parent object as `{}`; unless the
parent object is `null`, merge the popped object under the element's
local name — an existing array appends, an existing bare value
promotes to a two-element array, an absent key stores a one-element
array exactly when the popped frame's descriptor declares `isMany`,
else the value directly; finally store the object into the registry
slot of a declared id. -/
def onCloseTag (st : DState) (nsName : String) : DState :=
  let elementName := (qnameParse nsName).name
  let ns1 := st.ns.popContext
  match st.stack with
  | current :: top :: rest =>
    let topObj0 := if top.object = .undef then JValue.obj none .nil else top.object
    let topObj1 :=
      if topObj0 = .null then topObj0
      else
        if jsTypeofObject topObj0 && jsHasKey topObj0 elementName then
          match jsGet topObj0 elementName with
          | .arr xs => jsSetKey topObj0 elementName (.arr (xs.push current.object))
          | v => jsSetKey topObj0 elementName (.arr (.cons v (.cons current.object .nil)))
        else if Descriptor.isManyOf current.descr then
          jsSetKey topObj0 elementName (.arr (.cons current.object .nil))
        else jsSetKey topObj0 elementName current.object
    let refs' :=
      match current.idAttr with
      | some idv => refsSetObject st.refs idv current.object
      | none => st.refs
    { stack := { top with object := topObj1 } :: rest, refs := refs',
      nextSite := st.nextSite, ns := ns1 }
  | _ =>
    -- unbalanced close below the root frame: a tokenizer-contract
    -- violation, unreached by well-formed event streams
    { st with ns := ns1 }

/-- `XMLHandler._processText(top, val)` (lines 533-551): a nulled
object absorbs nothing; an unset object becomes the value; a plain
object stores/concatenates under the value-key; any other value
string-concatenates. -/
def processTextVal (h : Handler) (obj : JValue) (val : JValue) : JValue :=
  if obj = .null then obj
  else if obj = .undef then val
  else
    match obj with
    | .obj tag fields =>
      let cur := fields.get h.options.valueKey
      if cur = .undef then .obj tag (fields.set h.options.valueKey val)
      else .obj tag (fields.set h.options.valueKey (jsPlus cur val))
    | o => jsPlus o val

/-- `p.ontext` (lines 699-707): trim, drop whitespace-only chunks,
coerce via the current frame's descriptor, merge. -/
def onTextEv (h : Handler) (st : DState) (text : String) : DState :=
  let t := jsTrim text
  if t.length = 0 then st
  else
    match st.stack with
    | top :: rest =>
      let value := parseValue (.str t) top.descr
      { st with stack := { top with object := processTextVal h top.object value } :: rest }
    | [] => st

/-- `p.oncdata` (lines 683-697): trim, drop empty chunks; content that
itself carries an XML declaration is recursively deserialized as an
independent document — that nested parse needs the external tokenizer
and is abstracted as the `reparse` oracle — otherwise the literal
text merges like a text chunk (without coercion). -/
def onCDataEv (h : Handler) (reparse : String → JValue) (st : DState) (text : String) : DState :=
  let t := jsTrim text
  if t.length = 0 then st
  else
    let v := if containsXmlDecl t then reparse t else JValue.str t
    match st.stack with
    | top :: rest =>
      { st with stack := { top with object := processTextVal h top.object v } :: rest }
    | [] => st

/-- One tokenizer event. -/
def stepEvent (h : Handler) (reparse : String → JValue) (st : DState) : SaxEvent → DState
  | .openTag n attrs => onOpenTag h st n attrs
  | .closeTag n => onCloseTag st n
  | .text s => onTextEv h st s
  | .cdata s => onCDataEv h reparse st s

/-! ### Multiref resolution (lines 711-726) -/

/-- Site tag → resolved object, flattened from the registry. -/
def refsSiteMap (refs : List (String × RefEntry)) : List (Nat × JValue) :=
  refs.foldr
    (fun (e : String × RefEntry) acc =>
      e.2.hrefs.foldr (fun hr acc2 => (hr.2, e.2.object) :: acc2) acc)
    []

/-- Shallow-copy the second property list onto the first, in order
(`for j in obj: href.object[j] = obj[j]`). -/
def JProps.mergeAll : JProps → JProps → JProps
  | base, .nil => base
  | base, .cons k v rest => JProps.mergeAll (base.set k v) rest

mutual

/-- One resolution pass over a value tree: every placeholder (a
tagged object) receives a shallow copy of its referenced object's own
properties and loses its tag; a referenced object that is `null` or a
scalar contributes no properties.  Properties injected by the copy are
resolved by the following pass, mirroring the fact that the source's
merge loop copies references whose own pending merges are filled by
their own loop iterations. -/
def resolveOnceV (sites : List (Nat × JValue)) : JValue → JValue
  | .obj (some s) fields =>
    let fields' := resolveOnceP sites fields
    (match sites.lookup s with
     | some (.obj _ rprops) => .obj none (fields'.mergeAll rprops)
     | _ => .obj none fields')
  | .obj none fields => .obj none (resolveOnceP sites fields)
  | .arr xs => .arr (resolveOnceI sites xs)
  | v => v

def resolveOnceP (sites : List (Nat × JValue)) : JProps → JProps
  | .nil => .nil
  | .cons k v t => .cons k (resolveOnceV sites v) (resolveOnceP sites t)

def resolveOnceI (sites : List (Nat × JValue)) : JItems → JItems
  | .nil => .nil
  | .cons v t => .cons (resolveOnceV sites v) (resolveOnceI sites t)

end

/-- Iterate resolution passes (acyclic href chains are bounded by the
registry size; the cyclic structures JS would build are outside the
value model). -/
def iterateResolve (sites : List (Nat × JValue)) : Nat → JValue → JValue
  | 0, v => v
  | n + 1, v => iterateResolve sites n (resolveOnceV sites v)

/-! ### Fault message composition (lines 753-830) -/

/-- `selectn('a.b', v)`: undefined-safe path navigation. -/
def selectPath (v : JValue) : List String → JValue
  | [] => v
  | k :: rest => selectPath (jsGet v k) rest

/-- JS `a || b`. -/
def jsOr (a b : JValue) : JValue := if jsTruthy a then a else b

/-- `getSoap11FaultErrorMessage(faultBody)`: a truthy `faultcode`
(direct or under `$value`) marks a SOAP 1.1 fault; compose
`faultcode:`/`faultstring:`/`faultactor:` from plain strings and
`detail:` inlined verbatim when a plain string, else as a JSON dump;
`null` (here `none`) when there is no `faultcode`. -/
def getSoap11FaultErrorMessage (faultBody : JValue) : Option String :=
  let faultcode := jsOr (selectPath faultBody ["faultcode", "$value"])
    (selectPath faultBody ["faultcode"])
  if jsTruthy faultcode then
    let m1 := match faultcode with
      | .str s => "faultcode: " ++ s
      | _ => " "
    let faultstring := jsOr (selectPath faultBody ["faultstring", "$value"])
      (selectPath faultBody ["faultstring"])
    let m2 := match faultstring with
      | .str s => if s ≠ "" then m1 ++ " faultstring: " ++ s else m1
      | _ => m1
    let faultactor := jsOr (selectPath faultBody ["faultactor", "$value"])
      (selectPath faultBody ["faultactor"])
    let m3 := match faultactor with
      | .str s => if s ≠ "" then m2 ++ " faultactor: " ++ s else m2
      | _ => m2
    let detail := jsOr (selectPath faultBody ["detail", "$value"])
      (selectPath faultBody ["detail"])
    let m4 :=
      if jsIsNullish detail then m3
      else
        match detail with
        | .str s => m3 ++ " detail: " ++ s
        | d => m3 ++ " detail: " ++ jsonStringify d
    some m4
  else none

/-- `getSoap12FaultErrorMessage(faultBody)`: a truthy `Code` marks a
SOAP 1.2 fault; every part renders as a JSON dump except a plain-
string `Detail`, which inlines verbatim. -/
def getSoap12FaultErrorMessage (faultBody : JValue) : Option String :=
  let code := jsOr (selectPath faultBody ["Code"]) (selectPath faultBody ["Code"])
  if jsTruthy code then
    let m1 := " " ++ "Code: " ++ jsonStringify code
    let value := jsOr (selectPath faultBody ["Value", "$value"])
      (selectPath faultBody ["Value"])
    let m2 := if jsTruthy value then m1 ++ " " ++ "Value: " ++ jsonStringify value else m1
    let subCode := jsOr (selectPath faultBody ["Subcode", "$value"])
      (selectPath faultBody ["Subcode"])
    let m3 := if jsTruthy subCode then m2 ++ " " ++ "Subcode: " ++ jsonStringify subCode else m2
    let reason := jsOr (selectPath faultBody ["reason", "$value"])
      (selectPath faultBody ["Reason"])
    let m4 := if jsTruthy reason then m3 ++ " " ++ "Reason: " ++ jsonStringify reason else m3
    let nodeV := jsOr (selectPath faultBody ["Node", "$value"])
      (selectPath faultBody ["Node"])
    let m5 := if jsTruthy nodeV then m4 ++ " " ++ "Node: " ++ jsonStringify nodeV else m4
    let role := jsOr (selectPath faultBody ["Role", "$value"])
      (selectPath faultBody ["Role"])
    let m6 := if jsTruthy role then m5 ++ " " ++ "Role: " ++ jsonStringify role else m5
    let detail := jsOr (selectPath faultBody ["Detail", "$value"])
      (selectPath faultBody ["Detail"])
    let m7 :=
      if jsIsNullish detail then m6
      else
        match detail with
        | .str s => m6 ++ " Detail: " ++ s
        | d => m6 ++ " Detail: " ++ jsonStringify d
    some m7
  else none

/-- The error a SOAP fault raises: the composed message plus the full
parsed root attached (`error.root = root`). -/
structure FaultError where
  message : String
  root : JValue
deriving DecidableEq

/-- The end-of-document step of `xmlToJson` (lines 728-749): a root
with a truthy `Envelope` whose `Body.Fault` is present raises the
fault error (SOAP 1.1 message shape tried first, then 1.2, then a
generic message); a truthy `Envelope` without such a fault unwraps to
the `Envelope` value; otherwise the root is returned unchanged. -/
def finalizeRoot (root : JValue) : Except FaultError JValue :=
  if jsTruthy (jsGet root "Envelope") then
    let env := jsGet root "Envelope"
    let body := jsGet env "Body"
    if jsIsNullish body then .ok env
    else
      let fault := jsGet body "Fault"
      if jsIsNullish fault then .ok env
      else
        let msg :=
          match getSoap11FaultErrorMessage fault with
          | some m => m
          | none =>
            match getSoap12FaultErrorMessage fault with
            | some m => m
            | none => "Error occurred processing Fault response."
        .error { message := msg, root := root }
  else .ok root

/-- `XMLHandler.xmlToJson(nsContext, xml, descriptor)` on the event
stream the external tokenizer produces for `xml`: fold the events over
the frame stack from a root frame holding `{}` and the caller's
descriptor; fill every pending multiref merge site; then interpret
the envelope/fault shape.  `reparse` is the nested `xmlToJson` call
on XML-in-CDATA payloads (it needs the external tokenizer). -/
def XMLHandler.xmlToJson (h : Handler) (reparse : String → JValue) (nsIn : Option NsContext)
    (events : List SaxEvent) (descOpt : Option Descriptor) : Except FaultError JValue :=
  let st0 : DState :=
    { stack := [{ name := none, object := .obj none .nil, descr := descOpt, idAttr := none }],
      ns := nsIn.getD freshNs }
  let st := events.foldl (stepEvent h reparse) st0
  let root :=
    match st.stack.getLast? with
    | some f => f.object
    | none => .obj none .nil
  let root1 :=
    if st.refs.isEmpty then root
    else iterateResolve (refsSiteMap st.refs) (st.refs.length + 1) root
  finalizeRoot root1

/-- The oracle for nested XML-in-CDATA payloads when no such payload
occurs. -/
def noReparse : String → JValue := fun _ => JValue.undef

/-! ## Concrete instances used by the theorems -/

def decDigit (c : Char) : Option Nat :=
  if c == '0' then some 0 else if c == '1' then some 1 else if c == '2' then some 2
  else if c == '3' then some 3 else if c == '4' then some 4 else if c == '5' then some 5
  else if c == '6' then some 6 else if c == '7' then some 7 else if c == '8' then some 8
  else if c == '9' then some 9 else none

def decParseGo : Nat → List Char → Option Nat
  | acc, [] => some acc
  | acc, c :: t =>
    match decDigit c with
    | some d => decParseGo (acc * 10 + d) t
    | none => none

/-- A caller-supplied schema-level conversion function for an integer
simple type (the kind of `jsType` an `xsd:int` descriptor carries):
decimal text to a number, `0` for text outside the modelled range. -/
def intParse : String → JValue := fun s =>
  match s.data with
  | [] => .num 0
  | l =>
    match decParseGo 0 l with
    | some n => .num (n : Int)
    | none => .num 0

/-- A deserializer state with just the root frame. -/
def emptyDState : DState :=
  { stack := [{ name := none, object := .obj none .nil, descr := none, idAttr := none }] }

/-- A declared element descriptor with a date `jsType`. -/
def c8DateDesc : Option Descriptor :=
  some (.element (.mk { name := "d" } none .unqualified false false true (some .date) [] [] none))

/-- A declared element descriptor with a boolean `jsType`. -/
def c8BoolDesc : Option Descriptor :=
  some (.element (.mk { name := "b" } none .unqualified false false true (some .boolean) [] [] none))

/-- A declared element descriptor with a custom conversion function. -/
def c8FnDesc : Option Descriptor :=
  some (.element (.mk { name := "n" } none .unqualified false false true
    (some (.fn intParse)) [] [] none))

/-- Root descriptor declaring `p` with a repeat-less, int-typed child
`x` (no `isMany` hint). -/
def c2desc : Descriptor := .type { elements := [
  .mk { name := "p" } none .unqualified false false false none
    [.mk { name := "x" } none .unqualified false false true (some (.fn intParse)) [] [] none]
    [] none] }

/-- Events of `<p><x>1</x><x>2</x></p>`. -/
def c2events : List SaxEvent :=
  [.openTag "p" [], .openTag "x" [], .text "1", .closeTag "x",
   .openTag "x" [], .text "2", .closeTag "x", .closeTag "p"]

/-- Events of a SOAP 1.1 fault response with `faultcode` `Server` and
`faultstring` `boom`. -/
def c3events : List SaxEvent :=
  [.openTag "soap:Envelope" [("xmlns:soap", "http://schemas.xmlsoap.org/soap/envelope/")],
   .openTag "soap:Body" [],
   .openTag "soap:Fault" [],
   .openTag "faultcode" [], .text "Server", .closeTag "faultcode",
   .openTag "faultstring" [], .text "boom", .closeTag "faultstring",
   .closeTag "soap:Fault", .closeTag "soap:Body", .closeTag "soap:Envelope"]

/-- The parsed root of the fault document. -/
def c3root : JValue :=
  .obj none (.cons "Envelope" (.obj none (.cons "Body" (.obj none (.cons "Fault"
    (.obj none (.cons "faultcode" (.str "Server") (.cons "faultstring" (.str "boom") .nil)))
    .nil)) .nil)) .nil)

/-- Events of `<a id="1"><v>5</v></a><b href="#1"/>`. -/
def c6events : List SaxEvent :=
  [.openTag "a" [("id", "1")], .openTag "v" [], .text "5", .closeTag "v", .closeTag "a",
   .openTag "b" [("href", "#1")], .closeTag "b"]

def c6res : Except FaultError JValue :=
  XMLHandler.xmlToJson defaultHandler noReparse none c6events none

/-- The object both `a` and the filled placeholder `b` hold after the
multiref merge. -/
def c6obj : JValue :=
  .obj none (.cons "$attributes" (.obj none (.cons "id" (.str "1") .nil))
    (.cons "v" (.str "5") .nil))

/-- Events of `<r xmlns:xsi="..."><x xsi:nil="true"/></r>`. -/
def c7events : List SaxEvent :=
  [.openTag "r" [("xmlns:xsi", xsiURI)],
   .openTag "x" [("xsi:nil", "true")], .closeTag "x",
   .closeTag "r"]

/-- The repeatable declared descriptor of the C2 witness. -/
def c2xManyDesc : Option Descriptor :=
  some (.element (.mk { name := "x" } none .unqualified true false true none [] [] none))

/-- A root frame holding an empty object. -/
def rootFrame : Frame := ⟨none, .obj none .nil, none, none⟩

/-- A mid-parse state: the current frame was explicitly nulled by
`xsi:nil="true"`, its parent holds an empty object. -/
def c7cexState : DState :=
  { stack := [{ name := some "x", object := .null, descr := none, idAttr := none },
              { name := some "r", object := .obj none .nil, descr := none, idAttr := none },
              { name := none, object := .obj none .nil, descr := none, idAttr := none }] }

/-- A simple unqualified string-typed element descriptor. -/
def simpleStrField (nm : String) : ElemDesc :=
  .mk { name := nm } none .unqualified false false true none [] [] none

/-- An unqualified complex element descriptor declaring the given
field names as simple string children, in order. -/
def flatRecordDesc (nm : String) (names : List String) : ElemDesc :=
  .mk { name := nm } none .unqualified false false false none
    (names.map simpleStrField) [] none

/-- The record value `{k1: s1, ...}`. -/
def recordProps (fields : List (String × String)) : JProps :=
  JProps.ofList (fields.map fun p => (p.1, JValue.str p.2))

/-- Serialize a flat string record under its descriptor, render and
re-tokenize, and deserialize with no root descriptor — the round trip
of the claim. -/
def c1RoundTrip (nm : String) (fields : List (String × String)) : Except FaultError JValue :=
  let ser := (XMLHandler.jsonToXml defaultHandler (fields.length + 6) none none
    (some (.element (flatRecordDesc nm (fields.map Prod.fst))))
    (.obj none (recordProps fields))).1
  match ser.eventsOf with
  | some evs => XMLHandler.xmlToJson defaultHandler noReparse none evs none
  | none => .ok JValue.undef

/-- The element descriptor of the C5 mutation scenario: one declared
child, and an inheritance extension for subtype `Sub`. -/
def c5desc : ElemDesc :=
  .mk { name := "p" } none .unqualified false false false none
    [.mk { name := "a" } none .unqualified false false true none [] [] none]
    []
    (some [("Sub", [.mk { name := "b" } none .unqualified false false true none [] [] none])])

/-- A value whose attributes-key names the `Sub` subtype. -/
def c5val : JValue :=
  .obj none (.cons "$attributes"
    (.obj none (.cons "$xsiType" (.obj none (.cons "type" (.str "Sub") .nil)) .nil))
    (.cons "a" (.str "1") .nil))

/-- The length of the element list of the descriptor a serializer call
returns. -/
def descOptElemsLen (d : Option Descriptor) : Nat :=
  match d with
  | some (.element e) => e.elements.length
  | _ => 0

/-- The element descriptor `e'` is `e` after zero or more in-place
xsi:type extension steps anywhere in its tree: every scalar field and
the attribute list agree, and the `elements` list consists of the
original entries — each itself so extended — followed by appended
entries. -/
inductive ElemDesc.extendsDeep : ElemDesc → ElemDesc → Prop where
  | step (q : ParsedQName) (tr : Option TypeRef) (fo : Form) (m nl si : Bool)
      (jt : Option JsTy) (els els' suf : List ElemDesc) (ats : List AttrDesc)
      (inh : Option (List (String × List ElemDesc)))
      (hels : List.Forall₂ ElemDesc.extendsDeep els els') :
      ElemDesc.extendsDeep (.mk q tr fo m nl si jt els ats inh)
        (.mk q tr fo m nl si jt (els' ++ suf) ats inh)

/-- A type descriptor after the property loop's in-place extensions of
its entries (nothing is ever appended to a type descriptor itself). -/
def TypeDesc.extendsDeep (t t' : TypeDesc) : Prop :=
  List.Forall₂ ElemDesc.extendsDeep t.elements t'.elements ∧ t'.attributes = t.attributes

/-- What a serializer call can leave behind of the descriptor passed
in: an attribute descriptor or an absent descriptor comes back
unchanged; an element or type descriptor comes back with, at any
depth, only elements lists extended by appended entries. -/
def Descriptor.extendsDeepOpt : Option Descriptor → Option Descriptor → Prop
  | some (.element e), d' => ∃ e', d' = some (.element e') ∧ e.extendsDeep e'
  | some (.type t), d' => ∃ t', d' = some (.type t') ∧ t.extendsDeep t'
  | d, d' => d' = d

/-- A two-level descriptor whose declared child `x` itself carries an
inheritance extension: a subtype substitution named inside the child's
value mutates an entry of the parent's `elements` list. -/
def c5childDesc : ElemDesc :=
  .mk { name := "x" } none .unqualified false false false none
    [.mk { name := "a" } none .unqualified false false true none [] [] none]
    []
    (some [("Sub", [.mk { name := "b" } none .unqualified false false true none [] [] none])])

def c5nestDesc : ElemDesc :=
  .mk { name := "p" } none .unqualified false false false none [c5childDesc] [] none

/-- A value whose `x` child's attributes-key names the `Sub` subtype. -/
def c5nestVal : JValue :=
  .obj none (.cons "x" (.obj none (.cons "$attributes"
    (.obj none (.cons "$xsiType" (.obj none (.cons "type" (.str "Sub") .nil)) .nil))
    (.cons "a" (.str "1") .nil))) .nil)

/-- The element-list length of the first declared child of the
descriptor a serializer call returns. -/
def childElemsLenOf (d : Option Descriptor) : Nat :=
  match d with
  | some (.element e) =>
    match e.elements with
    | c :: _ => c.elements.length
    | [] => 0
  | _ => 0

/-- The strict comparator order of `_sortKeys`: by declared position,
ties by key position. -/
def rankLt (keys order : List String) (a b : String) : Prop :=
  order.indexOf a < order.indexOf b ∨
    (order.indexOf a = order.indexOf b ∧ keys.indexOf a < keys.indexOf b)

/-- A nillable, simple, qualified element descriptor living in the
XML-Schema-Instance namespace itself, under a prefix other than
`xsi`. -/
def c4CexDesc : ElemDesc :=
  .mk { pfx := some "p", name := "x", nsURI := some xsiURI } none .qualified
    false true true none [] [] none

/-! ## Claim theorems -/

/-- C8: For every text input and declared type, coercion
(`parseValue`) behaves as: with declared type date, a 10-character
string is returned unchanged and any other string is parsed into a
date/time value (the external `new Date` parse, which assumes the
local zone when no zone designator is present); with declared type
boolean, the strings `"true"` and `"1"` yield true and every other
string yields false; with any other declared conversion function, that
function is applied directly to the text; with no declared type, the
text is returned unchanged. -/
theorem c8_parseValue_coercion :
    (∀ (s : String) (d : Option Descriptor), Descriptor.jsTypeOf d = some JsTy.date →
      (s.length = 10 → parseValue (.str s) d = .str s) ∧
      (s.length ≠ 10 → parseValue (.str s) d = .date s)) ∧
    (∀ (s : String) (d : Option Descriptor), Descriptor.jsTypeOf d = some JsTy.boolean →
      ((s = "true" ∨ s = "1") → parseValue (.str s) d = .bool true) ∧
      (s ≠ "true" → s ≠ "1" → parseValue (.str s) d = .bool false)) ∧
    (∀ (s : String) (d : Option Descriptor) (f : String → JValue),
      Descriptor.jsTypeOf d = some (JsTy.fn f) → parseValue (.str s) d = f s) ∧
    (∀ (s : String) (d : Option Descriptor), Descriptor.jsTypeOf d = none →
      parseValue (.str s) d = .str s) := by
  refine ⟨fun s d hd => ⟨fun h => ?_, fun h => ?_⟩,
          fun s d hd => ⟨fun h => ?_, fun h1 h2 => ?_⟩,
          fun s d f hd => ?_, fun s d hd => ?_⟩
  · simp [parseValue, hd, h]
  · simp [parseValue, hd, h]
  · simp [parseValue, hd, h]
  · simp [parseValue, hd, h1, h2]
  · simp [parseValue, hd]
  · simp [parseValue, hd]

/-- Witness for C8 at concrete inputs. -/
theorem c8_parseValue_coercion_witness :
    parseValue (.str "2024-05-17") c8DateDesc = .str "2024-05-17" ∧
    parseValue (.str "2024-05-17T08:00:00") c8DateDesc = .date "2024-05-17T08:00:00" ∧
    parseValue (.str "1") c8BoolDesc = .bool true ∧
    parseValue (.str "no") c8BoolDesc = .bool false ∧
    parseValue (.str "42") c8FnDesc = .num 42 ∧
    parseValue (.str "plain") none = .str "plain" :=
  ⟨(c8_parseValue_coercion.1 _ c8DateDesc rfl).1 (by decide),
   (c8_parseValue_coercion.1 _ c8DateDesc rfl).2 (by decide),
   (c8_parseValue_coercion.2.1 _ c8BoolDesc rfl).1 (Or.inr rfl),
   (c8_parseValue_coercion.2.1 _ c8BoolDesc rfl).2 (by decide) (by decide),
   (c8_parseValue_coercion.2.2.1 _ c8FnDesc intParse rfl).trans (by decide),
   c8_parseValue_coercion.2.2.2 _ none rfl⟩

/-- C10: In the deserializer's open-tag handling, an element carrying
`xsi:nil="true"` together with at least one other
non-namespace-declaration attribute gets its object seeded as a map
holding that attribute under the attributes-key — the null mark is
overridden, in either attribute order — while an element whose sole
non-namespace attribute is `xsi:nil="true"` produces a `null` object. -/
theorem c10_nil_overridden_by_attributes (h : Handler) (st : DState) (nm a v : String)
    (ha1 : isXmlnsAttr a = false) (ha2 : (qnameParse a).pfx = none) (ha3 : a ≠ "href") :
    (((onOpenTag h st nm [("xmlns:xsi", xsiURI), ("xsi:nil", "true"), (a, v)]).stack.headD
        {}).object
      = .obj none (JProps.set .nil h.options.attributesKey
          (.obj none (.cons (qnameParse a).name (.str v) .nil)))) ∧
    (((onOpenTag h st nm [("xmlns:xsi", xsiURI), (a, v), ("xsi:nil", "true")]).stack.headD
        {}).object
      = .obj none (JProps.set .nil h.options.attributesKey
          (.obj none (.cons (qnameParse a).name (.str v) .nil)))) ∧
    (((onOpenTag h st nm [("xmlns:xsi", xsiURI), ("xsi:nil", "true")]).stack.headD
        {}).object = .null) := by
  have hhref : ("href" == a) = false := by
    simp [(Ne.symm ha3)]
  have e1 : isXmlnsAttr "xmlns:xsi" = true := by decide
  have e2 : isXmlnsAttr "xsi:nil" = false := by decide
  have e3 : qnameParse "xsi:nil" = { pfx := some "xsi", name := "nil" } := rfl
  have e4 : xmlnsPrefixOf "xmlns:xsi" = "xsi" := by decide
  refine ⟨?_, ?_, ?_⟩ <;>
    simp [onOpenTag, regularAttrStep, ha1, ha2, hhref, e1, e2, e3, e4,
      NsContext.pushContext, NsContext.addNamespace, NsContext.getNamespaceURI,
      List.lookup, JProps.set]

/-- Witness for C10 at a concrete state and attribute. -/
theorem c10_nil_overridden_by_attributes_witness :
    (((onOpenTag defaultHandler emptyDState "e"
        [("xmlns:xsi", xsiURI), ("xsi:nil", "true"), ("foo", "1")]).stack.headD {}).object
      = .obj none (JProps.set .nil "$attributes"
          (.obj none (.cons "foo" (.str "1") .nil)))) ∧
    (((onOpenTag defaultHandler emptyDState "e"
        [("xmlns:xsi", xsiURI), ("xsi:nil", "true")]).stack.headD {}).object = .null) :=
  ⟨(c10_nil_overridden_by_attributes defaultHandler emptyDState "e" "foo" "1"
      (by decide) (by decide) (by decide)).1,
   (c10_nil_overridden_by_attributes defaultHandler emptyDState "e" "foo" "1"
      (by decide) (by decide) (by decide)).2.2⟩

/-- C2: In the deserializer's close-tag handling, for every element
whose local name is merged into the parent frame's object: an absent
key stores a one-element array exactly when the popped frame's
matching descriptor declares the element repeatable and the value
directly otherwise; a key already holding an array appends; a key
already holding a bare value promotes to a two-element array
regardless of the repeatable flag.  In particular, parsing
`<p><x>1</x><x>2</x></p>` with no `isMany` hint yields
`{x: [1, 2]}`. -/
theorem c2_close_tag_array_promotion :
    (∀ (cur top : Frame) (rest : List Frame) (refs : List (String × RefEntry))
        (nsite : Nat) (ns : NsContext) (nsName : String) (tg : Option Nat) (props : JProps),
      top.object = .obj tg props →
      (props.hasKey (qnameParse nsName).name = false →
        Descriptor.isManyOf cur.descr = true →
        ((onCloseTag ⟨cur :: top :: rest, refs, nsite, ns⟩ nsName).stack.headD {}).object
          = .obj tg (props.set (qnameParse nsName).name (.arr (.cons cur.object .nil)))) ∧
      (props.hasKey (qnameParse nsName).name = false →
        Descriptor.isManyOf cur.descr = false →
        ((onCloseTag ⟨cur :: top :: rest, refs, nsite, ns⟩ nsName).stack.headD {}).object
          = .obj tg (props.set (qnameParse nsName).name cur.object)) ∧
      (∀ xs, props.hasKey (qnameParse nsName).name = true →
        props.get (qnameParse nsName).name = .arr xs →
        ((onCloseTag ⟨cur :: top :: rest, refs, nsite, ns⟩ nsName).stack.headD {}).object
          = .obj tg (props.set (qnameParse nsName).name (.arr (xs.push cur.object)))) ∧
      (props.hasKey (qnameParse nsName).name = true →
        isArr (props.get (qnameParse nsName).name) = false →
        ((onCloseTag ⟨cur :: top :: rest, refs, nsite, ns⟩ nsName).stack.headD {}).object
          = .obj tg (props.set (qnameParse nsName).name
              (.arr (.cons (props.get (qnameParse nsName).name) (.cons cur.object .nil)))))) ∧
    XMLHandler.xmlToJson defaultHandler noReparse none c2events (some c2desc)
      = .ok (.obj none (.cons "p" (.obj none (.cons "x"
          (.arr (.cons (.num 1) (.cons (.num 2) .nil))) .nil)) .nil)) := by
  refine ⟨fun cur top rest refs nsite ns nsName tg props htop => ?_, rfl⟩
  refine ⟨fun hk hm => ?_, fun hk hm => ?_, fun xs hk hv => ?_, fun hk hv => ?_⟩
  · simp [onCloseTag, htop, jsTypeofObject, jsHasKey, hk, hm, jsSetKey]
  · simp [onCloseTag, htop, jsTypeofObject, jsHasKey, hk, hm, jsSetKey]
  · simp [onCloseTag, htop, jsTypeofObject, jsHasKey, jsGet, hk, hv, jsSetKey]
  · cases hv' : props.get (qnameParse nsName).name <;>
      simp_all [onCloseTag, htop, jsTypeofObject, jsHasKey, jsGet, hk, jsSetKey, isArr]

/-- Witness for C2's conditional clauses at concrete frames. -/
theorem c2_close_tag_array_promotion_witness :
    ((onCloseTag ⟨[⟨some "x", .str "1", c2xManyDesc, none⟩,
        ⟨some "p", .obj none .nil, none, none⟩, rootFrame], [], 0, freshNs⟩
        "x").stack.headD {}).object
      = .obj none (.cons "x" (.arr (.cons (.str "1") .nil)) .nil) ∧
    ((onCloseTag ⟨[⟨some "x", .str "2", none, none⟩,
        ⟨some "p", .obj none (.cons "x" (.str "1") .nil), none, none⟩, rootFrame],
        [], 0, freshNs⟩ "x").stack.headD {}).object
      = .obj none (.cons "x" (.arr (.cons (.str "1") (.cons (.str "2") .nil))) .nil) ∧
    ((onCloseTag ⟨[⟨some "x", .str "3", none, none⟩,
        ⟨some "p", .obj none (.cons "x" (.arr (.cons (.str "1") (.cons (.str "2") .nil))) .nil),
          none, none⟩, rootFrame], [], 0, freshNs⟩ "x").stack.headD {}).object
      = .obj none (.cons "x"
          (.arr (.cons (.str "1") (.cons (.str "2") (.cons (.str "3") .nil)))) .nil) :=
  ⟨((c2_close_tag_array_promotion.1 _ _ _ _ _ _ "x" none .nil rfl).1 (by decide) (by decide)),
   ((c2_close_tag_array_promotion.1 _ _ _ _ _ _ "x" none
      (.cons "x" (.str "1") .nil) rfl).2.2.2 (by decide) (by decide)),
   ((c2_close_tag_array_promotion.1 _ _ _ _ _ _ "x" none
      (.cons "x" (.arr (.cons (.str "1") (.cons (.str "2") .nil))) .nil) rfl).2.2.1
      (.cons (.str "1") (.cons (.str "2") .nil)) (by decide) (by decide))⟩

/-- C3: At end of a deserialize call, a root whose `Envelope.Body.Fault`
is present raises an error whose message is the composed fault message
— the SOAP 1.1 shape is tried first, then 1.2, then a generic text —
and which carries the full parsed root; a root with `Envelope` but no
such fault returns the `Envelope` value; any other root is returned
unchanged.  In particular the claim's SOAP 1.1 fault with faultcode
`Server` and faultstring `boom` raises the error whose message
contains `faultcode: Server` and `faultstring: boom`, with the parsed
root attached. -/
theorem c3_fault_detection :
    (∀ root : JValue, jsTruthy (jsGet root "Envelope") = true →
      jsIsNullish (jsGet (jsGet root "Envelope") "Body") = false →
      jsIsNullish (jsGet (jsGet (jsGet root "Envelope") "Body") "Fault") = false →
      finalizeRoot root = .error
        { message :=
            match getSoap11FaultErrorMessage
                (jsGet (jsGet (jsGet root "Envelope") "Body") "Fault") with
            | some m => m
            | none =>
              match getSoap12FaultErrorMessage
                  (jsGet (jsGet (jsGet root "Envelope") "Body") "Fault") with
              | some m => m
              | none => "Error occurred processing Fault response.",
          root := root }) ∧
    (∀ root : JValue, jsTruthy (jsGet root "Envelope") = true →
      jsIsNullish (jsGet (jsGet root "Envelope") "Body") = true →
      finalizeRoot root = .ok (jsGet root "Envelope")) ∧
    (∀ root : JValue, jsTruthy (jsGet root "Envelope") = true →
      jsIsNullish (jsGet (jsGet root "Envelope") "Body") = false →
      jsIsNullish (jsGet (jsGet (jsGet root "Envelope") "Body") "Fault") = true →
      finalizeRoot root = .ok (jsGet root "Envelope")) ∧
    (∀ root : JValue, jsTruthy (jsGet root "Envelope") = false →
      finalizeRoot root = .ok root) ∧
    XMLHandler.xmlToJson defaultHandler noReparse none c3events none
      = .error { message := "faultcode: Server faultstring: boom", root := c3root } ∧
    containsSub "faultcode: Server faultstring: boom" "faultcode: Server" = true ∧
    containsSub "faultcode: Server faultstring: boom" "faultstring: boom" = true := by
  refine ⟨fun root h1 h2 h3 => ?_, fun root h1 h2 => ?_, fun root h1 h2 h3 => ?_,
          fun root h1 => ?_, rfl, by decide, by decide⟩
  · simp [finalizeRoot, h1, h2, h3]
  · simp [finalizeRoot, h1, h2]
  · simp [finalizeRoot, h1, h2, h3]
  · simp [finalizeRoot, h1]

/-- Witness for C3's conditional clauses at the concrete fault root. -/
theorem c3_fault_detection_witness :
    finalizeRoot c3root = .error
      { message := "faultcode: Server faultstring: boom", root := c3root } ∧
    finalizeRoot (.obj none (.cons "Envelope" (.obj none .nil) .nil))
      = .ok (.obj none .nil) ∧
    finalizeRoot (.obj none (.cons "r" (.str "v") .nil))
      = .ok (.obj none (.cons "r" (.str "v") .nil)) :=
  ⟨(c3_fault_detection.1 c3root (by decide) (by decide) (by decide)).trans rfl,
   c3_fault_detection.2.1 (.obj none (.cons "Envelope" (.obj none .nil) .nil))
      (by decide) (by decide),
   c3_fault_detection.2.2.2.1 _ (by decide)⟩

/-- C7 counterexample: a popped frame whose object was explicitly
nulled by `xsi:nil="true"` does merge into the parent — the parent
object, previously `{}`, gains the element's key holding `null` — so
the close-tag handling does not leave the parent unchanged at that
key. -/
theorem c7_counterexample :
    ((onCloseTag c7cexState "x").stack.headD {}).object
        = .obj none (.cons "x" JValue.null .nil) ∧
    ¬ ((onCloseTag c7cexState "x").stack.headD {}).object = .obj none .nil ∧
    XMLHandler.xmlToJson defaultHandler noReparse none c7events none
        = .ok (.obj none (.cons "r" (.obj none (.cons "x" JValue.null .nil)) .nil)) :=
  ⟨rfl, by decide, rfl⟩

/-- C7 amended: the null guard of the close-tag handling protects the
parent frame, not the popped frame — a parent whose object was
explicitly nulled absorbs nothing from any popped child, while a
popped frame whose own object is `null` merges that `null` into a
normal parent under its key (stored directly when the key is absent
and the descriptor is not repeatable). -/
theorem c7_nulled_parent_absorbs :
    (∀ (cur top : Frame) (rest : List Frame) (refs : List (String × RefEntry))
        (nsite : Nat) (ns : NsContext) (nsName : String),
      top.object = .null →
      ((onCloseTag ⟨cur :: top :: rest, refs, nsite, ns⟩ nsName).stack.headD {}).object
        = .null) ∧
    (∀ (cur top : Frame) (rest : List Frame) (refs : List (String × RefEntry))
        (nsite : Nat) (ns : NsContext) (nsName : String) (tg : Option Nat) (props : JProps),
      top.object = .obj tg props →
      cur.object = .null →
      props.hasKey (qnameParse nsName).name = false →
      Descriptor.isManyOf cur.descr = false →
      ((onCloseTag ⟨cur :: top :: rest, refs, nsite, ns⟩ nsName).stack.headD {}).object
        = .obj tg (props.set (qnameParse nsName).name .null)) := by
  constructor
  · intro cur top rest refs nsite ns nsName htop
    simp [onCloseTag, htop]
  · intro cur top rest refs nsite ns nsName tg props htop hcur hk hm
    simp [onCloseTag, htop, hcur, jsTypeofObject, jsHasKey, hk, hm, jsSetKey]

/-- Witness for C7's amended clauses at concrete frames. -/
theorem c7_nulled_parent_absorbs_witness :
    ((onCloseTag ⟨[{ name := some "x", object := .str "1" },
        { name := some "r", object := .null },
        { name := none, object := .obj none .nil }], [], 0, freshNs⟩ "x").stack.headD
          {}).object = .null ∧
    ((onCloseTag c7cexState "x").stack.headD {}).object
        = .obj none (.cons "x" JValue.null .nil) :=
  ⟨(c7_nulled_parent_absorbs.1 _ _ _ _ _ _ "x" rfl),
   (c7_nulled_parent_absorbs.2 _ _ _ _ _ _ "x" none .nil rfl rfl (by decide) (by decide))⟩

/-- C6 counterexample: parsing `<a id="1"><v>5</v></a><b href="#1"/>`
does not yield a `b` equal to `{v: 5}` (neither as text nor as a
number): the placeholder keeps the href/id bookkeeping under the
attributes-key, which the merge overwrites with the resolved
element's own attributes-key. -/
theorem c6_counterexample :
    (match c6res with
     | .ok r => jsGet r "b"
     | .error _ => .undef) ≠ .obj none (.cons "v" (.str "5") .nil) ∧
    (match c6res with
     | .ok r => jsGet r "b"
     | .error _ => .undef) ≠ .obj none (.cons "v" (.num 5) .nil) := by
  decide

theorem JProps.hasKey_iff_mem : (t : JProps) → (k : String) →
    (JProps.hasKey t k = true ↔ k ∈ JProps.keys t)
  | .nil, k => by simp [JProps.hasKey, JProps.keys]
  | .cons k0 v t, k => by
    simp only [JProps.hasKey, JProps.keys, Bool.or_eq_true, beq_iff_eq, List.mem_cons]
    rw [JProps.hasKey_iff_mem t k]
    constructor
    · rintro (h | h)
      · exact Or.inl h.symm
      · exact Or.inr h
    · rintro (h | h)
      · exact Or.inl h.symm
      · exact Or.inr h

theorem JProps.get_set_self : (base : JProps) → (k : String) → (v : JValue) →
    (JProps.set base k v).get k = v
  | .nil, k, v => by simp [JProps.set, JProps.get]
  | .cons k0 w t, k, v => by
    by_cases h : (k0 == k) = true
    · simp [JProps.set, JProps.get, h]
    · have hf : (k0 == k) = false := by
        cases hq : (k0 == k) with
        | true => exact absurd hq h
        | false => rfl
      simp [JProps.set, JProps.get, hf, JProps.get_set_self t k v]

theorem JProps.get_set_ne : (base : JProps) → (k k' : String) → (v : JValue) →
    (k == k') = false → (JProps.set base k v).get k' = JProps.get base k'
  | .nil, k, k', v, h => by simp [JProps.set, JProps.get, h]
  | .cons k0 w t, k, k', v, h => by
    by_cases h0 : (k0 == k) = true
    · have hke : k0 = k := by simpa using h0
      have h0f : (k0 == k') = false := by
        subst hke
        exact h
      simp [JProps.set, JProps.get, h0, h0f]
    · have h0f : (k0 == k) = false := by
        cases hq : (k0 == k) with
        | true => exact absurd hq h0
        | false => rfl
      simp [JProps.set, JProps.get, h0f, JProps.get_set_ne t k k' v h]

theorem JProps.mergeAll_get : (rprops : JProps) → (base : JProps) → (k : String) →
    (JProps.keys rprops).Nodup →
    ((JProps.hasKey rprops k = true →
        (JProps.mergeAll base rprops).get k = JProps.get rprops k) ∧
     (JProps.hasKey rprops k = false →
        (JProps.mergeAll base rprops).get k = JProps.get base k))
  | .nil, base, k, _ => by simp [JProps.mergeAll, JProps.hasKey]
  | .cons k0 v rest, base, k, hnd => by
    have hnd0 : k0 ∉ JProps.keys rest ∧ (JProps.keys rest).Nodup :=
      List.nodup_cons.mp (by simpa [JProps.keys] using hnd)
    have ih := JProps.mergeAll_get rest (JProps.set base k0 v) k hnd0.2
    constructor
    · intro hk
      by_cases he : (k0 == k) = true
      · have hek : k0 = k := by simpa using he
        subst hek
        have hrk : JProps.hasKey rest k0 = false := by
          cases hq : JProps.hasKey rest k0 with
          | true => exact absurd ((JProps.hasKey_iff_mem rest k0).mp hq) hnd0.1
          | false => rfl
        simp [JProps.mergeAll, ih.2 hrk, JProps.get_set_self, JProps.get]
      · have hef : (k0 == k) = false := by
          cases hq : (k0 == k) with
          | true => exact absurd hq he
          | false => rfl
        have hrk : JProps.hasKey rest k = true := by
          simpa [JProps.hasKey, hef] using hk
        simp [JProps.mergeAll, JProps.get, hef, ih.1 hrk]
    · intro hk
      have hef : (k0 == k) = false := by
        cases hq : (k0 == k) with
        | true => simp [JProps.hasKey, hq] at hk
        | false => rfl
      have hrk : JProps.hasKey rest k = false := by
        simpa [JProps.hasKey, hef] using hk
      simp [JProps.mergeAll, ih.2 hrk, JProps.get_set_ne base k0 k v hef]

/-- C6 (corrected): every pending multiref merge site — a placeholder
tagged with a registered site whose referenced object resolved to an
object — is filled exactly once: the resolution pass replaces the
placeholder by an untagged object holding the placeholder's resolved
properties overlaid by a shallow copy of the referenced object's own
properties (conjuncts 1-2), and an already-filled, untagged object is
never merged again — a further pass only recurses into its children
(conjunct 3).  On `<a id="1"><v>5</v></a><b href="#1"/>` with no
descriptor the filled `b` equals the resolved `a` object, whose `v`
is the string `"5"` (text is coerced by `parseValue` under the
frame's descriptor, and with none the raw string is kept), not the
number 5 (conjuncts 4-5). -/
theorem c6_multiref_fill :
    (∀ (sites : List (Nat × JValue)) (s : Nat) (fields rprops : JProps)
        (tg : Option Nat),
      sites.lookup s = some (.obj tg rprops) →
      resolveOnceV sites (.obj (some s) fields)
        = .obj none (JProps.mergeAll (resolveOnceP sites fields) rprops)) ∧
    (∀ (base rprops : JProps) (k : String),
      (JProps.keys rprops).Nodup →
      (JProps.hasKey rprops k = true →
        (JProps.mergeAll base rprops).get k = JProps.get rprops k) ∧
      (JProps.hasKey rprops k = false →
        (JProps.mergeAll base rprops).get k = JProps.get base k)) ∧
    (∀ (sites : List (Nat × JValue)) (fields : JProps),
      resolveOnceV sites (.obj none fields) = .obj none (resolveOnceP sites fields)) ∧
    c6res = .ok (.obj none (.cons "a" c6obj (.cons "b" c6obj .nil))) ∧
    (match c6res with
     | .ok r => jsGet (jsGet r "b") "v"
     | .error _ => .undef) = .str "5" := by
  refine ⟨?_, ?_, ?_, rfl, rfl⟩
  · intro sites s fields rprops tg hlk
    simp only [resolveOnceV, hlk]
  · intro base rprops k hnd
    exact JProps.mergeAll_get rprops base k hnd
  · intro sites fields
    simp only [resolveOnceV]

/-- Witness for the quantified clauses of `c6_multiref_fill` at
concrete inputs. -/
theorem c6_multiref_fill_witness :
    resolveOnceV [(0, JValue.obj none (.cons "v" (.str "5") .nil))]
        (.obj (some 0) (.cons "w" JValue.null .nil))
      = .obj none (JProps.mergeAll
          (resolveOnceP [(0, JValue.obj none (.cons "v" (.str "5") .nil))]
            (.cons "w" JValue.null .nil))
          (.cons "v" (.str "5") .nil)) ∧
    (JProps.mergeAll (.cons "w" (.num 1) .nil) (.cons "v" (.str "5") .nil)).get "v"
      = JProps.get (.cons "v" (.str "5") .nil) "v" ∧
    resolveOnceV ([] : List (Nat × JValue)) (.obj none .nil)
      = .obj none (resolveOnceP [] .nil) :=
  ⟨c6_multiref_fill.1 _ 0 _ _ none rfl,
   (c6_multiref_fill.2.1 (.cons "w" (.num 1) .nil) (.cons "v" (.str "5") .nil) "v"
     (by decide)).1 (by decide),
   c6_multiref_fill.2.2.1 _ _⟩

/-! ### C5: in-place descriptor mutation during serialization -/


mutual

theorem ElemDesc.extendsDeep_refl : (e : ElemDesc) → ElemDesc.extendsDeep e e
  | .mk q tr fo m nl si jt els ats inh => by
    have h := ElemDesc.extendsDeep.step q tr fo m nl si jt els els [] ats inh
      (extendsDeepList_refl els)
    simpa using h

theorem extendsDeepList_refl : (l : List ElemDesc) → List.Forall₂ ElemDesc.extendsDeep l l
  | [] => .nil
  | x :: t => .cons (ElemDesc.extendsDeep_refl x) (extendsDeepList_refl t)

end

theorem forall2_append_split {α β : Type} {R : α → β → Prop} :
    ∀ (l1 l2 : List α) (l : List β), List.Forall₂ R (l1 ++ l2) l →
      ∃ la lb, l = la ++ lb ∧ List.Forall₂ R l1 la ∧ List.Forall₂ R l2 lb
  | [], l2, l, h => ⟨[], l, rfl, .nil, h⟩
  | x :: t, l2, _, .cons hx ht => by
    obtain ⟨la, lb, heq, h1, h2⟩ := forall2_append_split t l2 _ ht
    exact ⟨_ :: la, lb, by rw [heq]; rfl, .cons hx h1, h2⟩

mutual

theorem ElemDesc.extendsDeep_trans : (a b c : ElemDesc) →
    ElemDesc.extendsDeep a b → ElemDesc.extendsDeep b c → ElemDesc.extendsDeep a c
  | _, _, _, .step q tr fo m nl si jt els1 els1' suf1 ats inh hf1, h2 => by
    cases h2 with
    | step _ _ _ _ _ _ _ _ els2' suf2 _ _ hf2 =>
      obtain ⟨l2a, l2b, hsplit, hfa, hfb⟩ := forall2_append_split els1' suf1 els2' hf2
      subst hsplit
      have hels := extendsDeepList_trans els1 els1' l2a hf1 hfa
      have h := ElemDesc.extendsDeep.step q tr fo m nl si jt els1 l2a (l2b ++ suf2)
        ats inh hels
      simpa [List.append_assoc] using h

theorem extendsDeepList_trans : (la lb lc : List ElemDesc) →
    List.Forall₂ ElemDesc.extendsDeep la lb → List.Forall₂ ElemDesc.extendsDeep lb lc →
    List.Forall₂ ElemDesc.extendsDeep la lc
  | _, _, _, .nil, .nil => .nil
  | _, _, _, .cons hxy hta, .cons hyz htb =>
    .cons (ElemDesc.extendsDeep_trans _ _ _ hxy hyz) (extendsDeepList_trans _ _ _ hta htb)

end

theorem Descriptor.extendsDeepOpt_refl : (d : Option Descriptor) → Descriptor.extendsDeepOpt d d
  | none => rfl
  | some (.attribute _) => rfl
  | some (.element e) => ⟨e, rfl, ElemDesc.extendsDeep_refl e⟩
  | some (.type t) => ⟨t, rfl, extendsDeepList_refl _, rfl⟩

theorem Descriptor.extendsDeepOpt_trans : (a b c : Option Descriptor) →
    Descriptor.extendsDeepOpt a b → Descriptor.extendsDeepOpt b c →
    Descriptor.extendsDeepOpt a c
  | none, _, c, h1, h2 => by
    simp only [Descriptor.extendsDeepOpt] at h1
    subst h1
    exact h2
  | some (.attribute a), _, c, h1, h2 => by
    simp only [Descriptor.extendsDeepOpt] at h1
    subst h1
    exact h2
  | some (.element e), b, c, h1, h2 => by
    obtain ⟨e1, hb, hd1⟩ := h1
    subst hb
    obtain ⟨e2, hc, hd2⟩ := h2
    exact ⟨e2, hc, ElemDesc.extendsDeep_trans _ _ _ hd1 hd2⟩
  | some (.type t), b, c, h1, h2 => by
    obtain ⟨t1, hb, hd1, ha1⟩ := h1
    subst hb
    obtain ⟨t2, hc, hd2, ha2⟩ := h2
    exact ⟨t2, hc, extendsDeepList_trans _ _ _ hd1 hd2, ha2.trans ha1⟩

theorem extendsDeep_withElements_append :
    ∀ (e : ElemDesc) (ext : List ElemDesc),
      ElemDesc.extendsDeep e (e.withElements (e.elements ++ ext))
  | .mk q tr fo m nl si jt els ats inh, ext => by
    have h := ElemDesc.extendsDeep.step q tr fo m nl si jt els els ext ats inh
      (extendsDeepList_refl els)
    simpa [ElemDesc.withElements, ElemDesc.elements] using h

theorem forall2_replFirst (p : String) (e' : ElemDesc) :
    ∀ (l : List ElemDesc) (e : ElemDesc),
      l.find? (fun x => x.qname.name == p) = some e → ElemDesc.extendsDeep e e' →
      List.Forall₂ ElemDesc.extendsDeep l (replFirstByName l p e')
  | [], e, hf, _ => by simp [List.find?] at hf
  | x :: t, e, hf, hee => by
    by_cases hx : (x.qname.name == p) = true
    · simp only [List.find?, hx] at hf
      cases hf
      simp only [replFirstByName, hx, if_true]
      exact .cons hee (extendsDeepList_refl t)
    · have hxf : (x.qname.name == p) = false := by
        cases hq : (x.qname.name == p) with
        | true => exact absurd hq hx
        | false => rfl
      simp only [List.find?, hxf] at hf
      simp only [replFirstByName, hxf, Bool.false_eq_true, if_false]
      exact .cons (ElemDesc.extendsDeep_refl x) (forall2_replFirst p e' t e hf hee)

theorem forall2_replaceLast (es : List ElemDesc) (p : String) (e e' : ElemDesc)
    (hfind : findElemTable es p = some e) (hee : ElemDesc.extendsDeep e e') :
    List.Forall₂ ElemDesc.extendsDeep es (replaceLastByName es p e') := by
  unfold replaceLastByName
  rw [← List.forall₂_reverse_iff, List.reverse_reverse]
  exact forall2_replFirst p e' es.reverse e hfind hee

theorem withReplacedElem_deep (d : Option Descriptor) (p : String) (e e' : ElemDesc)
    (hfind : findElemTable (Descriptor.elementsOf d) p = some e)
    (hee : ElemDesc.extendsDeep e e') :
    Descriptor.extendsDeepOpt d (Descriptor.withReplacedElem d p e') := by
  match d with
  | none => simp [Descriptor.elementsOf, findElemTable, List.find?] at hfind
  | some (.attribute a) => simp [Descriptor.elementsOf, findElemTable, List.find?] at hfind
  | some (.element e0) =>
    refine ⟨_, rfl, ?_⟩
    obtain ⟨q, tr, fo, m, nl, si, jt, els, ats, inh⟩ := e0
    have hf2 : List.Forall₂ ElemDesc.extendsDeep els
        (replaceLastByName els p e') :=
      forall2_replaceLast els p e e' (by simpa [Descriptor.elementsOf] using hfind) hee
    have h := ElemDesc.extendsDeep.step q tr fo m nl si jt els
      (replaceLastByName els p e') [] ats inh hf2
    simpa [ElemDesc.withElements] using h
  | some (.type t) =>
    refine ⟨_, rfl, ?_, rfl⟩
    exact forall2_replaceLast t.elements p e e'
      (by simpa [Descriptor.elementsOf] using hfind) hee



theorem applyInheritanceGo_deep (h : Handler) :
    ∀ (props : JProps) (e : ElemDesc),
      ElemDesc.extendsDeep e (applyInheritanceGo h e props)
  | .nil, e => by simpa [applyInheritanceGo] using ElemDesc.extendsDeep_refl e
  | .cons k child rest, e => by
    show ElemDesc.extendsDeep e (applyInheritanceGo h e (.cons k child rest))
    refine ElemDesc.extendsDeep_trans e _ _ ?_ (applyInheritanceGo_deep h rest _)
    by_cases hty : (k == h.options.xsiTypeKey) = true
    · simp only [hty, if_true]
      cases hinh : e.inheritanceExt with
      | none => simpa [hinh] using ElemDesc.extendsDeep_refl e
      | some inh =>
        simp only [hinh]
        match hch : jsGet child "type" with
        | .str t =>
          cases hlk : inh.lookup t with
          | some ext => simpa [hlk] using extendsDeep_withElements_append e ext
          | none => simpa [hlk] using ElemDesc.extendsDeep_refl e
        | .undef => exact ElemDesc.extendsDeep_refl e
        | .null => exact ElemDesc.extendsDeep_refl e
        | .num n => exact ElemDesc.extendsDeep_refl e
        | .bool b => exact ElemDesc.extendsDeep_refl e
        | .date d => exact ElemDesc.extendsDeep_refl e
        | .arr xs => exact ElemDesc.extendsDeep_refl e
        | .obj tg fs => exact ElemDesc.extendsDeep_refl e
    · have htyf : (k == h.options.xsiTypeKey) = false := by
        cases hq : (k == h.options.xsiTypeKey) with
        | true => exact absurd hq hty
        | false => rfl
      simp only [htyf, Bool.false_eq_true, if_false]
      exact ElemDesc.extendsDeep_refl e

theorem applyInheritance_deep (h : Handler) (e : ElemDesc) (val : JValue) :
    ElemDesc.extendsDeep e (applyInheritance h e val) := by
  unfold applyInheritance
  by_cases hn : (!(jsIsNullish val)) = true
  · simp only [hn, if_true]
    match jsGet val h.options.attributesKey with
    | .obj tg props => exact applyInheritanceGo_deep h props e
    | .undef => exact ElemDesc.extendsDeep_refl e
    | .null => exact ElemDesc.extendsDeep_refl e
    | .str _ => exact ElemDesc.extendsDeep_refl e
    | .num _ => exact ElemDesc.extendsDeep_refl e
    | .bool _ => exact ElemDesc.extendsDeep_refl e
    | .date _ => exact ElemDesc.extendsDeep_refl e
    | .arr _ => exact ElemDesc.extendsDeep_refl e
  · have hnf : (!(jsIsNullish val)) = false := by
      cases hq : (!(jsIsNullish val)) with
      | true => exact absurd hq hn
      | false => rfl
    simp only [hnf, Bool.false_eq_true, if_false]
    exact ElemDesc.extendsDeep_refl e



theorem ite_snd_opt (d : Option Descriptor) (c : Prop) [inst : Decidable c]
    (A B : XmlBody × NsContext × Option Descriptor)
    (hA : Descriptor.extendsDeepOpt d A.2.2)
    (hB : Descriptor.extendsDeepOpt d B.2.2) :
    Descriptor.extendsDeepOpt d (if c then A else B).2.2 := by
  by_cases hc : c
  · rw [if_pos hc]
    exact hA
  · rw [if_neg hc]
    exact hB

theorem elemOf_deep (e0 e1 : ElemDesc) (he : ElemDesc.extendsDeep e0 e1)
    (d : Option Descriptor)
    (hopt : Descriptor.extendsDeepOpt (some (.element e1)) d) :
    ElemDesc.extendsDeep e0 (elemOf d e1) := by
  obtain ⟨x, hx, hdx⟩ := hopt
  rw [hx]
  exact ElemDesc.extendsDeep_trans _ _ _ he hdx

theorem jsonToXml_descriptor_deep :
    ∀ (fuel : Nat),
      (∀ (h : Handler) (node : XmlBody) (ns : NsContext) (e : ElemDesc) (items : JItems),
        ElemDesc.extendsDeep e (jsonToXmlManyF h fuel node ns e items).2.2) ∧
      (∀ (h : Handler) (node : XmlBody) (ns : NsContext) (e : ElemDesc) (val : JValue),
        ElemDesc.extendsDeep e (elementBranchF h fuel node ns e val).2.2) ∧
      (∀ (h : Handler) (node : XmlBody) (ns : NsContext) (dOpt : Option Descriptor)
          (val attrs : JValue),
        Descriptor.extendsDeepOpt dOpt (mapObjectF h fuel node ns dOpt val attrs).2.2) ∧
      (∀ (h : Handler) (node : XmlBody) (ns : NsContext) (dOpt : Option Descriptor)
          (val : JValue) (names : List String),
        Descriptor.extendsDeepOpt dOpt (mapFieldsF h fuel node ns dOpt val names).2.2) ∧
      (∀ (h : Handler) (node : XmlBody) (ns : NsContext) (dOpt : Option Descriptor)
          (val : JValue),
        Descriptor.extendsDeepOpt dOpt (jsonToXmlF h fuel node ns dOpt val).2.2) := by
  intro fuel
  induction fuel with
  | zero =>
    refine ⟨?_, ?_, ?_, ?_, ?_⟩
    · intro h node ns e items
      exact ElemDesc.extendsDeep_refl e
    · intro h node ns e val
      exact ElemDesc.extendsDeep_refl e
    · intro h node ns d v a
      exact Descriptor.extendsDeepOpt_refl d
    · intro h node ns d v names
      exact Descriptor.extendsDeepOpt_refl d
    · intro h node ns d v
      exact Descriptor.extendsDeepOpt_refl d
  | succ f ih =>
    obtain ⟨ihMany, ihElem, ihMapO, ihMapF, ihJson⟩ := ih
    have hMany : ∀ (h : Handler) (node : XmlBody) (ns : NsContext) (e : ElemDesc)
        (items : JItems),
        ElemDesc.extendsDeep e (jsonToXmlManyF h (f + 1) node ns e items).2.2 := by
      intro h node ns e items
      match items with
      | .nil => exact ElemDesc.extendsDeep_refl e
      | .cons v rest =>
        show ElemDesc.extendsDeep e
          (jsonToXmlManyF h f (jsonToXmlF h f node ns (some (.element e)) v).1
            (jsonToXmlF h f node ns (some (.element e)) v).2.1
            (elemOf (jsonToXmlF h f node ns (some (.element e)) v).2.2 e) rest).2.2
        obtain ⟨e', he', hd⟩ := ihJson h node ns (some (.element e)) v
        rw [he']
        exact ElemDesc.extendsDeep_trans _ _ _ hd (ihMany h _ _ e' rest)
    have hElem : ∀ (h : Handler) (node : XmlBody) (ns : NsContext) (e : ElemDesc)
        (val : JValue),
        ElemDesc.extendsDeep e (elementBranchF h (f + 1) node ns e val).2.2 := by
      intro h node ns e val
      obtain ⟨q, tr, fo, m, nl, si, jt, els, ats, inh⟩ := e
      cases si with
      | true => exact ElemDesc.extendsDeep_refl _
      | false =>
        rw [elementBranchF]
        simp only [ElemDesc.isSimple, Bool.false_eq_true, if_false]
        refine elemOf_deep _ _ ?_ _ ?_
        · exact applyInheritance_deep h _ _
        · refine ite_snd_opt _ _ _ _ ?_ (ihMapO h _ _ _ _ _)
          refine ite_snd_opt _ _ _ _ ?_ ?_
          · exact ⟨_, rfl, ElemDesc.extendsDeep_refl _⟩
          · exact ⟨_, rfl, ElemDesc.extendsDeep_refl _⟩
    have hMapO : ∀ (h : Handler) (node : XmlBody) (ns : NsContext)
        (dOpt : Option Descriptor) (val attrs : JValue),
        Descriptor.extendsDeepOpt dOpt (mapObjectF h (f + 1) node ns dOpt val attrs).2.2 := by
      intro h node ns dOpt val attrs
      match val with
      | .undef => exact Descriptor.extendsDeepOpt_refl dOpt
      | .null => exact Descriptor.extendsDeepOpt_refl dOpt
      | .str s => exact Descriptor.extendsDeepOpt_refl dOpt
      | .num n => exact Descriptor.extendsDeepOpt_refl dOpt
      | .bool b => exact Descriptor.extendsDeepOpt_refl dOpt
      | .date d => exact Descriptor.extendsDeepOpt_refl dOpt
      | .arr xs =>
        rw [mapObjectF]
        cases hsub : getXsiType h attrs with
        | some t =>
          simp only [hsub, jsIsNullish, jsTypeofObject, isDate, isArr]
          exact Descriptor.extendsDeepOpt_refl dOpt
        | none =>
          simp only [hsub, jsIsNullish, jsTypeofObject, isDate, isArr]
          exact Descriptor.extendsDeepOpt_refl dOpt
      | .obj tg fs =>
        rw [mapObjectF]
        cases hsub : getXsiType h attrs with
        | some t =>
          simp only [hsub, jsIsNullish, jsTypeofObject, isDate, isArr]
          exact Descriptor.extendsDeepOpt_refl dOpt
        | none =>
          simp only [hsub, jsIsNullish, jsTypeofObject, isDate, isArr]
          exact ihMapF h _ _ dOpt _ _
    have hMapF : ∀ (h : Handler) (node : XmlBody) (ns : NsContext)
        (dOpt : Option Descriptor) (val : JValue) (names : List String),
        Descriptor.extendsDeepOpt dOpt
          (mapFieldsF h (f + 1) node ns dOpt val names).2.2 := by
      intro h node ns dOpt val names
      match names with
      | [] => exact Descriptor.extendsDeepOpt_refl dOpt
      | p :: rest =>
        rw [mapFieldsF]
        by_cases hak : (p == h.options.attributesKey) = true
        · simp only [hak, if_true]
          exact ihMapF h _ _ dOpt _ _
        · have hakf : (p == h.options.attributesKey) = false := by
            cases hq : (p == h.options.attributesKey) with
            | true => exact absurd hq hak
            | false => rfl
          simp only [hakf, Bool.false_eq_true, if_false]
          cases hfe : findElemTable (Descriptor.elementsOf dOpt) p with
          | some e =>
            simp only [hfe]
            obtain ⟨e', he', hde⟩ := ihJson h node ns (some (.element e)) (jsGet val p)
            rw [he']
            exact Descriptor.extendsDeepOpt_trans dOpt _ _
              (withReplacedElem_deep dOpt p e e' hfe hde) (ihMapF h _ _ _ _ _)
          | none =>
            simp only [hfe]
            cases hfa : findAttrTable (Descriptor.attributesOf dOpt) p with
            | some a =>
              simp only [hfa]
              exact ihMapF h _ _ dOpt _ _
            | none =>
              simp only [hfa]
              by_cases hig : h.options.ignoreUnknownProperties = true
              · simp only [hig, if_true]
                exact ihMapF h _ _ dOpt _ _
              · have higf : h.options.ignoreUnknownProperties = false := by
                  cases hq : h.options.ignoreUnknownProperties with
                  | true => exact absurd hq hig
                  | false => rfl
                simp only [higf, Bool.false_eq_true, if_false]
                exact ihMapF h _ _ dOpt _ _
    refine ⟨hMany, hElem, hMapO, hMapF, ?_⟩
    intro h node ns dOpt val
    match dOpt with
    | none => exact ihMapO h node ns none val JValue.undef
    | some (.attribute a) => exact rfl
    | some (.type t) => exact ihMapO h node ns (some (.type t)) val JValue.undef
    | some (.element e) =>
      obtain ⟨q, tr, fo, m, nl, si, jt, els, ats, inh⟩ := e
      match val, m with
      | .arr items, true => exact ⟨_, rfl, ihMany h node ns _ items⟩
      | .arr items, false => exact ⟨_, rfl, ihElem h node ns _ (.arr items)⟩
      | .undef, m => exact ⟨_, rfl, ihElem h node ns _ JValue.undef⟩
      | .null, m => exact ⟨_, rfl, ihElem h node ns _ JValue.null⟩
      | .str s, m => exact ⟨_, rfl, ihElem h node ns _ (.str s)⟩
      | .num n, m => exact ⟨_, rfl, ihElem h node ns _ (.num n)⟩
      | .bool b, m => exact ⟨_, rfl, ihElem h node ns _ (.bool b)⟩
      | .date d, m => exact ⟨_, rfl, ihElem h node ns _ (.date d)⟩
      | .obj tg fs, m => exact ⟨_, rfl, ihElem h node ns _ (.obj tg fs)⟩



/-- C5 counterexample: serializing `c5val` (whose attributes-key names
the `Sub` subtype) under `c5desc` returns the descriptor with its
elements list grown from one entry to two — the xsi:type extension
appends to the shared descriptor in place, refuting immutability; and
in the nested scenario the same append fires inside a child recursion
and surfaces as a mutation of an entry of the parent descriptor's
elements list. -/
theorem c5_counterexample :
    descOptElemsLen (XMLHandler.jsonToXml defaultHandler 4 none none
      (some (.element c5desc)) c5val).2.2 = 2 ∧
    c5desc.elements.length = 1 ∧
    childElemsLenOf (XMLHandler.jsonToXml defaultHandler 8 none none
      (some (.element c5nestDesc)) c5nestVal).2.2 = 2 ∧
    c5childDesc.elements.length = 1 :=
  ⟨rfl, rfl, rfl, rfl⟩

/-- C5 (corrected): the descriptor a `jsonToXml` call leaves behind is
the descriptor passed in after zero or more in-place xsi:type element
appends, at any depth of its tree: every scalar field and attribute
list agrees with the original, and every elements list — of the
descriptor itself and, recursively, of its entries — is the
pointwise-so-extended original list followed by appended extension
entries. -/
theorem c5_descriptor_extends_deep (h : Handler) (fuel : Nat)
    (node : Option XmlBody) (ns : Option NsContext)
    (dOpt : Option Descriptor) (val : JValue) :
    Descriptor.extendsDeepOpt dOpt
      (XMLHandler.jsonToXml h fuel node ns dOpt val).2.2 :=
  (jsonToXml_descriptor_deep fuel).2.2.2.2 h (node.getD {}) (ns.getD freshNs) dOpt val


/-! ### C4: nillable serialization and its round trip -/

/-- Splitting text at the first colon, when the leading part is
colon-free. -/
theorem qnameParse_prefixed_aux (b : List Char) :
    ∀ (a : List Char), splitAtColon a = none →
      splitAtColon (a ++ ':' :: b) = some (a, b)
  | [], _ => by simp [splitAtColon]
  | c :: t, h => by
    by_cases hc : c = ':'
    · rw [hc] at h
      rw [show splitAtColon (':' :: t) = some ([], t) from rfl] at h
      exact Option.noConfusion h
    · have hcb : (c == ':') = false := by simp [hc]
      have ih := qnameParse_prefixed_aux b t
      simp only [splitAtColon, List.cons_append, hcb, Bool.false_eq_true, if_false,
        List.append_eq] at h ⊢
      cases ht : splitAtColon t with
      | none => rw [ih ht]
      | some pr =>
        rw [ht] at h
        simp at h

/-- `QName.parse` on a prefixed name with a colon-free prefix. -/
theorem qnameParse_prefixed (p nm : String) (hp : splitAtColon p.data = none) :
    qnameParse (p ++ ":" ++ nm) = { pfx := some p, name := nm } := by
  unfold qnameParse
  have hd : (p ++ ":" ++ nm).data = p.data ++ ':' :: nm.data := by
    simp [String.data_append]
  rw [hd, qnameParse_prefixed_aux nm.data p.data hp]
  simp [strOfChars]

/-- `QName.parse` on a colon-free name. -/
theorem qnameParse_plain (nm : String) (h : splitAtColon nm.data = none) :
    qnameParse nm = { pfx := none, name := nm } := by
  unfold qnameParse
  rw [h]

/-- Every `xmlns:`-prefixed attribute name is a namespace declaration. -/
theorem isXmlnsAttr_prefixed (p : String) : isXmlnsAttr ("xmlns:" ++ p) = true := by
  have hd : ("xmlns:" ++ p).data = 'x' :: 'm' :: 'l' :: 'n' :: 's' :: ':' :: p.data := by
    simp [String.data_append]
  simp [isXmlnsAttr, hd, List.isPrefixOf]

/-- The declared prefix of an `xmlns:`-prefixed attribute. -/
theorem xmlnsPrefixOf_prefixed (p : String) : xmlnsPrefixOf ("xmlns:" ++ p) = p := by
  have hd : ("xmlns:" ++ p).data = 'x' :: 'm' :: 'l' :: 'n' :: 's' :: ':' :: p.data := by
    simp [String.data_append]
  have hne : ("xmlns:" ++ p == "xmlns") = false := by
    simp [String.ext_iff, hd]
  simp [xmlnsPrefixOf, hne, hd, strOfChars]

/-- Appending to a common prefix is injective on strings. -/
theorem strPrefixCancel (pre p r : String) : (pre ++ p = pre ++ r) ↔ p = r := by
  constructor
  · intro h
    have h2 := congrArg String.data h
    simp only [String.data_append] at h2
    have h3 := List.append_cancel_left h2
    cases p; cases r; simpa [String.ext_iff]
  · intro h; rw [h]

/-- The regular-attribute loop of `onopentag` over attributes that are
all namespace declarations except an `xsi:nil="true"` (with the `xsi`
prefix resolving to the XSI namespace): the object mark stays in
`{undefined, null}`, is `null` whenever the nil attribute occurs, and
no attribute map is collected. -/
theorem c4_attr_fold (ns1 : NsContext) (hres : ns1.getNamespaceURI "xsi" = some xsiURI) :
    ∀ (attrs : List (String × String)),
      (∀ a ∈ attrs, isXmlnsAttr a.1 = true ∨ a = ("xsi:nil", "true")) →
      ∀ (acc : JValue × Option JProps), (acc = (.undef, none) ∨ acc = (.null, none)) →
        (attrs.foldl (regularAttrStep defaultHandler ns1) acc = (.undef, none) ∨
         attrs.foldl (regularAttrStep defaultHandler ns1) acc = (.null, none)) ∧
        (("xsi:nil", "true") ∈ attrs →
          attrs.foldl (regularAttrStep defaultHandler ns1) acc = (.null, none)) ∧
        (acc = (.null, none) →
          attrs.foldl (regularAttrStep defaultHandler ns1) acc = (.null, none))
  | [], _, acc, hacc => ⟨hacc, by simp, fun h => h⟩
  | a :: rest, hx, acc, hacc => by
    have hnilstep : ∀ acc', (acc' = ((.undef : JValue), (none : Option JProps)) ∨
        acc' = (.null, none)) →
        regularAttrStep defaultHandler ns1 acc' ("xsi:nil", "true") = (.null, none) := by
      intro acc' hacc'
      rcases hacc' with h0 | h0 <;> rw [h0] <;>
        · have hq : qnameParse "xsi:nil" = { pfx := some "xsi", name := "nil" } := rfl
          simp [regularAttrStep, hq, hres, isXmlnsAttr]
    have hstep : regularAttrStep defaultHandler ns1 acc a = acc ∨
        regularAttrStep defaultHandler ns1 acc a = (.null, none) := by
      rcases hx a (List.mem_cons_self a rest) with hxm | hnil
      · left
        simp [regularAttrStep, hxm]
      · right
        rw [hnil]
        exact hnilstep acc hacc
    have hrest := fun acc' hacc' =>
      c4_attr_fold ns1 hres rest (fun b hb => hx b (List.mem_cons_of_mem a hb)) acc' hacc'
    have hacc' : regularAttrStep defaultHandler ns1 acc a = (.undef, none) ∨
        regularAttrStep defaultHandler ns1 acc a = (.null, none) := by
      rcases hstep with h | h
      · rw [h]; exact hacc
      · right; exact h
    refine ⟨by simpa [List.foldl] using (hrest _ hacc').1, ?_, ?_⟩
    · intro hmem
      rcases List.mem_cons.mp hmem with heq | hmem'
      · have hstepnil : regularAttrStep defaultHandler ns1 acc a = (.null, none) := by
          rw [← heq]; exact hnilstep acc hacc
        simp only [List.foldl, hstepnil]
        exact (hrest _ (Or.inr rfl)).2.2 rfl
      · simpa [List.foldl] using (hrest _ hacc').2.1 hmem'
    · intro h0
      have hstepnull : regularAttrStep defaultHandler ns1 acc a = (.null, none) := by
        rcases hstep with h | h
        · rw [h, h0]
        · exact h
      simp only [List.foldl, hstepnull]
      exact (hrest _ (Or.inr rfl)).2.2 rfl

/-- `onopentag` on an `xsi:nil="true"` element whose other attributes
are namespace declarations: the pushed frame's object is `null`. -/
theorem c4_open (nm pfull : String) (attrs : List (String × String))
    (hloc : (qnameParse pfull).name = nm)
    (hx : ∀ a ∈ attrs, isXmlnsAttr a.1 = true ∨ a = ("xsi:nil", "true"))
    (hmem : ("xsi:nil", "true") ∈ attrs)
    (hres : (attrs.foldl (fun ns (a : String × String) =>
        if isXmlnsAttr a.1 then ns.addNamespace (xmlnsPrefixOf a.1) a.2 else ns)
        (NsContext.pushContext freshNs)).getNamespaceURI "xsi" = some xsiURI)
    (hhref : attrs.lookup "href" = none)
    (hid : attrs.lookup "id" = none) :
    onOpenTag defaultHandler
      { stack := [{ name := none, object := .obj none .nil, descr := none, idAttr := none }],
        ns := freshNs } pfull attrs
      = { stack := [{ name := some nm, object := .null, descr := none, idAttr := none },
                    { name := none, object := .obj none .nil, descr := none, idAttr := none }],
          refs := [], nextSite := 0,
          ns := attrs.foldl (fun ns (a : String × String) =>
            if isXmlnsAttr a.1 then ns.addNamespace (xmlnsPrefixOf a.1) a.2 else ns)
            (NsContext.pushContext freshNs) } := by
  have hfold := (c4_attr_fold _ hres attrs hx (.undef, none) (Or.inl rfl)).2.1 hmem
  simp only [onOpenTag, List.headD, hfold, hloc, hhref, hid]

/-- Deserializing a childless `xsi:nil="true"` element (all of whose
other attributes are namespace declarations, the `xsi` prefix
resolving to the XSI namespace) yields `null` under the element's
local name. -/
theorem c4_deser (nm pfull : String) (attrs : List (String × String))
    (hloc : (qnameParse pfull).name = nm)
    (hx : ∀ a ∈ attrs, isXmlnsAttr a.1 = true ∨ a = ("xsi:nil", "true"))
    (hmem : ("xsi:nil", "true") ∈ attrs)
    (hres : (attrs.foldl (fun ns (a : String × String) =>
        if isXmlnsAttr a.1 then ns.addNamespace (xmlnsPrefixOf a.1) a.2 else ns)
        (NsContext.pushContext freshNs)).getNamespaceURI "xsi" = some xsiURI)
    (hhref : attrs.lookup "href" = none)
    (hid : attrs.lookup "id" = none) :
    XMLHandler.xmlToJson defaultHandler noReparse none
      [.openTag pfull attrs, .closeTag pfull] none
      = .ok (.obj none (.cons nm JValue.null .nil)) := by
  simp only [XMLHandler.xmlToJson, List.foldl, stepEvent, Option.getD]
  rw [c4_open nm pfull attrs hloc hx hmem hres hhref hid]
  have hk : JProps.hasKey .nil nm = false := rfl
  have hs : JProps.set .nil nm JValue.null = .cons nm JValue.null .nil := rfl
  simp only [onCloseTag, hloc]
  simp only [jsTypeofObject, jsHasKey, hk, jsSetKey, hs,
    Descriptor.isManyOf, List.getLast?, List.isEmpty]
  by_cases hnm : (nm == "Envelope") = true
  · simp [finalizeRoot, jsGet, JProps.get, hnm, jsTruthy, hk, hs, jsIsNullish]
  · simp only [Bool.not_eq_true] at hnm
    simp [finalizeRoot, jsGet, JProps.get, hnm, jsTruthy, hk, hs, jsIsNullish]

/-- Unfolding the serializer at fuel 2 on a `null` value under an
element descriptor. -/
theorem jsonToXml2_elem_null (h : Handler) (node : XmlBody) (ns : NsContext) (e : ElemDesc) :
    jsonToXmlF h 2 node ns (some (.element e)) .null
      = ((elementBranchF h 1 node ns e .null).1, (elementBranchF h 1 node ns e .null).2.1,
         some (.element (elementBranchF h 1 node ns e .null).2.2)) := rfl

/-- Serializing `null` under an unqualified nillable descriptor. -/
theorem c4_ser_unq (qp : Option String) (qn : String) (qu : Option String)
    (tr : Option TypeRef) (m si : Bool) (jt : Option JsTy) (els : List ElemDesc)
    (ats : List AttrDesc) (inh : Option (List (String × List ElemDesc))) :
    elementBranchF defaultHandler 1 {} freshNs
      (.mk { pfx := qp, name := qn, nsURI := qu } tr .unqualified m true si jt els ats inh)
      JValue.null
      = ({ attributes := [],
           children := .cons (.element qn [("xmlns:xsi", xsiURI), ("xsi:nil", "true")] .nil) .nil },
         freshNs,
         .mk { pfx := qp, name := qn, nsURI := qu } tr .unqualified m true si jt els ats inh) := by
  cases si <;> cases tr <;> exact rfl

/-- Serializing `null` under a qualified nillable descriptor with no
namespace URI and no prefix. -/
theorem c4_ser_q0 (qn : String) (tr : Option TypeRef) (m si : Bool)
    (jt : Option JsTy) (els : List ElemDesc) (ats : List AttrDesc)
    (inh : Option (List (String × List ElemDesc))) :
    elementBranchF defaultHandler 1 {} freshNs
      (.mk { pfx := none, name := qn, nsURI := none } tr .qualified m true si jt els ats inh)
      JValue.null
      = ({ attributes := [],
           children := .cons (.element qn [("xmlns:xsi", xsiURI), ("xsi:nil", "true")] .nil) .nil },
         freshNs,
         .mk { pfx := none, name := qn, nsURI := none } tr .qualified m true si jt els ats inh) := by
  cases si <;> cases tr <;> exact rfl

/-- Serializing `null` under a qualified nillable descriptor with no
namespace URI and a declared prefix. -/
theorem c4_ser_q0p (qn p : String) (tr : Option TypeRef) (m si : Bool)
    (jt : Option JsTy) (els : List ElemDesc) (ats : List AttrDesc)
    (inh : Option (List (String × List ElemDesc))) :
    elementBranchF defaultHandler 1 {} freshNs
      (.mk { pfx := some p, name := qn, nsURI := none } tr .qualified m true si jt els ats inh)
      JValue.null
      = ({ attributes := [],
           children := .cons (.element (p ++ ":" ++ qn)
             [("xmlns:xsi", xsiURI), ("xsi:nil", "true")] .nil) .nil },
         freshNs,
         .mk { pfx := some p, name := qn, nsURI := none } tr .qualified m true si jt els ats inh) := by
  cases si <;> cases tr <;> exact rfl

/-- Serializing `null` under a qualified nillable descriptor in a
non-XSI namespace with no declared prefix: the synthesized `ns1`
prefix is used. -/
theorem c4_ser_qu0 (qn u : String) (tr : Option TypeRef) (m si : Bool)
    (jt : Option JsTy) (els : List ElemDesc) (ats : List AttrDesc)
    (inh : Option (List (String × List ElemDesc)))
    (hub : (u == xsiURI) = false) :
    elementBranchF defaultHandler 1 {} freshNs
      (.mk { pfx := none, name := qn, nsURI := some u } tr .qualified m true si jt els ats inh)
      JValue.null
      = ({ attributes := [],
           children := .cons (.element ("ns1" ++ ":" ++ qn)
             [("xmlns:ns1", u), ("xmlns:xsi", xsiURI), ("xsi:nil", "true")] .nil) .nil },
         freshNs,
         .mk { pfx := none, name := qn, nsURI := some u } tr .qualified m true si jt els ats inh) := by
  rw [elementBranchF]
  cases si <;> cases tr <;>
    simp [hub, NsContext.pushContext, NsContext.getPrefixMapping, NsContext.declareNamespace,
      NsContext.countBindings, NsContext.popContext, declareNamespaceOn, XmlBody.setAttr,
      XmlBody.addChild, setAssoc, elementTextChildren, enforceRestrictionsStep,
      toXmlDateOrTime, defaultHandler, freshNs, jsIsNullish, jsTypeofObject, jsIsObjectNonNull,
      jsGet, containsSub, jsToStr, subSearch, applyInheritance, elemOf, mapObjectF, isArr, isDate,
      XmlContents.append, Descriptor.typeRefOf, ElemDesc.isSimple, ElemDesc.isNillable,
      ElemDesc.form, ElemDesc.qname, ElemDesc.typeRef] <;>
    exact ⟨rfl, rfl⟩

/-- Serializing `null` under a qualified nillable descriptor in a
non-XSI namespace with a declared prefix other than `xsi`. -/
theorem c4_ser_qup (qn u p : String) (tr : Option TypeRef) (m si : Bool)
    (jt : Option JsTy) (els : List ElemDesc) (ats : List AttrDesc)
    (inh : Option (List (String × List ElemDesc)))
    (hub : (u == xsiURI) = false) (hpx : p ≠ "xsi") :
    elementBranchF defaultHandler 1 {} freshNs
      (.mk { pfx := some p, name := qn, nsURI := some u } tr .qualified m true si jt els ats inh)
      JValue.null
      = ({ attributes := [],
           children := .cons (.element (p ++ ":" ++ qn)
             [("xmlns:" ++ p, u), ("xmlns:xsi", xsiURI), ("xsi:nil", "true")] .nil) .nil },
         freshNs,
         .mk { pfx := some p, name := qn, nsURI := some u } tr .qualified m true si jt els ats inh) := by
  have hxp : ¬("xmlns:" ++ p = "xmlns:xsi") := fun h =>
    hpx ((strPrefixCancel "xmlns:" p "xsi").mp (h.trans rfl))
  have hpn : ¬("xmlns:" ++ p = "xsi:nil") := by
    intro h
    have h2 := congrArg String.data h
    simp [String.data_append] at h2
  rw [elementBranchF]
  cases si <;> cases tr <;>
    simp [hub, hxp, hpn, NsContext.pushContext, NsContext.getPrefixMapping,
      NsContext.declareNamespace,
      NsContext.countBindings, NsContext.popContext, declareNamespaceOn, XmlBody.setAttr,
      XmlBody.addChild, setAssoc, elementTextChildren, enforceRestrictionsStep,
      toXmlDateOrTime, defaultHandler, freshNs, jsIsNullish, jsTypeofObject, jsIsObjectNonNull,
      jsGet, containsSub, jsToStr, subSearch, applyInheritance, elemOf, mapObjectF, isArr, isDate,
      XmlContents.append, Descriptor.typeRefOf, ElemDesc.isSimple, ElemDesc.isNillable,
      ElemDesc.form, ElemDesc.qname, ElemDesc.typeRef]

/-- Serializing `null` under a qualified nillable descriptor in a
non-XSI namespace with declared prefix `xsi`: the later XSI
declaration overwrites the element's own `xmlns:xsi` attribute. -/
theorem c4_ser_quxsi (qn u : String) (tr : Option TypeRef) (m si : Bool)
    (jt : Option JsTy) (els : List ElemDesc) (ats : List AttrDesc)
    (inh : Option (List (String × List ElemDesc)))
    (hub : (u == xsiURI) = false) :
    elementBranchF defaultHandler 1 {} freshNs
      (.mk { pfx := some "xsi", name := qn, nsURI := some u } tr .qualified m true si jt els
        ats inh)
      JValue.null
      = ({ attributes := [],
           children := .cons (.element ("xsi" ++ ":" ++ qn)
             [("xmlns:xsi", xsiURI), ("xsi:nil", "true")] .nil) .nil },
         freshNs,
         .mk { pfx := some "xsi", name := qn, nsURI := some u } tr .qualified m true si jt els
           ats inh) := by
  rw [elementBranchF]
  cases si <;> cases tr <;>
    simp [hub, NsContext.pushContext, NsContext.getPrefixMapping, NsContext.declareNamespace,
      NsContext.countBindings, NsContext.popContext, declareNamespaceOn, XmlBody.setAttr,
      XmlBody.addChild, setAssoc, elementTextChildren, enforceRestrictionsStep,
      toXmlDateOrTime, defaultHandler, freshNs, jsIsNullish, jsTypeofObject, jsIsObjectNonNull,
      jsGet, containsSub, jsToStr, subSearch, applyInheritance, elemOf, mapObjectF, isArr, isDate,
      XmlContents.append, Descriptor.typeRefOf, ElemDesc.isSimple, ElemDesc.isNillable,
      ElemDesc.form, ElemDesc.qname, ElemDesc.typeRef]

/-- C4 counterexample: for the nillable descriptor `c4CexDesc` — a
qualified element living in the XML-Schema-Instance namespace itself
under the prefix `p` — serializing `null` does produce a childless
element with `xsi:nil="true"` (and the XSI namespace declared, as
`xmlns:p`), but the `xsi` prefix of the nil attribute itself is left
undeclared, so deserializing that element back stores `nil` as a plain
attribute: the result is an object carrying an attribute map, not
`null`. -/
theorem c4_counterexample :
    c4CexDesc.isNillable = true ∧
    XMLHandler.jsonToXml defaultHandler 2 none none (some (.element c4CexDesc)) JValue.null
      = ({ attributes := [],
           children := .cons (.element "p:x"
             [("xmlns:p", xsiURI), ("xsi:nil", "true")] .nil) .nil },
         freshNs, some (.element c4CexDesc)) ∧
    XMLHandler.xmlToJson defaultHandler noReparse none
      [.openTag "p:x" [("xmlns:p", xsiURI), ("xsi:nil", "true")], .closeTag "p:x"] none
      = .ok (.obj none (.cons "x"
          (.obj none (.cons "$attributes" (.obj none (.cons "nil" (.str "true") .nil)) .nil))
          .nil)) ∧
    (JValue.obj none (.cons "x"
        (.obj none (.cons "$attributes" (.obj none (.cons "nil" (.str "true") .nil)) .nil))
        .nil)) ≠ .obj none (.cons "x" JValue.null .nil) :=
  ⟨rfl, rfl, rfl, by decide⟩

/-- C4 (corrected): for every nillable element descriptor whose local
name and declared prefix are colon-free and whose namespace is not the
XML-Schema-Instance namespace itself, serializing `null` produces a
single element with the attribute `xsi:nil="true"`, the XSI namespace
declared as `xmlns:xsi`, and no content; and deserializing that
element's event stream yields `null` under the element's local name —
not an empty object.  (Without the last hypothesis the round trip
fails: see the counterexample.) -/
theorem c4_nillable_roundtrip (e : ElemDesc) (hn : e.isNillable = true)
    (hname : splitAtColon e.qname.name.data = none)
    (hpfx : ∀ p, e.qname.pfx = some p → splitAtColon p.data = none)
    (hxsi : e.qname.nsURI ≠ some xsiURI) :
    ∃ nm attrs,
      XMLHandler.jsonToXml defaultHandler 2 none none (some (.element e)) JValue.null
        = ({ attributes := [], children := .cons (.element nm attrs .nil) .nil },
           freshNs, some (.element e)) ∧
      ("xsi:nil", "true") ∈ attrs ∧
      ("xmlns:xsi", xsiURI) ∈ attrs ∧
      XmlBody.eventsOf { attributes := [], children := .cons (.element nm attrs .nil) .nil }
        = some [.openTag nm attrs, .closeTag nm] ∧
      XMLHandler.xmlToJson defaultHandler noReparse none
        [.openTag nm attrs, .closeTag nm] none
        = .ok (.obj none (.cons e.qname.name JValue.null .nil)) := by
  obtain ⟨q, tr, fo, m, nl, si, jt, els, ats, inh⟩ := e
  obtain ⟨qp, qn, qu⟩ := q
  simp only [ElemDesc.isNillable] at hn
  subst hn
  simp only [ElemDesc.qname] at hname hpfx hxsi ⊢
  rw [XMLHandler.jsonToXml]
  simp only [Option.getD]
  rw [jsonToXml2_elem_null]
  cases fo with
  | unqualified =>
    refine ⟨qn, [("xmlns:xsi", xsiURI), ("xsi:nil", "true")], ?_, by simp, by simp, rfl, ?_⟩
    · rw [c4_ser_unq qp qn qu tr m si jt els ats inh]
    · exact c4_deser qn qn _ (by rw [qnameParse_plain qn hname]) (by decide) (by decide)
        rfl rfl rfl
  | qualified =>
    cases qu with
    | none =>
      cases qp with
      | none =>
        refine ⟨qn, [("xmlns:xsi", xsiURI), ("xsi:nil", "true")], ?_, by simp, by simp, rfl, ?_⟩
        · rw [c4_ser_q0 qn tr m si jt els ats inh]
        · exact c4_deser qn qn _ (by rw [qnameParse_plain qn hname]) (by decide) (by decide)
            rfl rfl rfl
      | some p =>
        refine ⟨p ++ ":" ++ qn, [("xmlns:xsi", xsiURI), ("xsi:nil", "true")], ?_,
          by simp, by simp, rfl, ?_⟩
        · rw [c4_ser_q0p qn p tr m si jt els ats inh]
        · exact c4_deser qn (p ++ ":" ++ qn) _
            (by rw [qnameParse_prefixed p qn (hpfx p rfl)]) (by decide) (by decide)
            rfl rfl rfl
    | some u =>
      have hub : (u == xsiURI) = false := by
        simp only [beq_eq_false_iff_ne, ne_eq]
        intro h
        exact hxsi (by rw [h])
      cases qp with
      | none =>
        refine ⟨"ns1" ++ ":" ++ qn,
          [("xmlns:ns1", u), ("xmlns:xsi", xsiURI), ("xsi:nil", "true")], ?_,
          by simp, by simp, rfl, ?_⟩
        · rw [c4_ser_qu0 qn u tr m si jt els ats inh hub]
        · refine c4_deser qn ("ns1" ++ ":" ++ qn) _
            (by rw [qnameParse_prefixed "ns1" qn rfl]) ?_ (by simp) ?_ rfl rfl
          · intro a ha
            simp only [List.mem_cons, List.not_mem_nil, or_false] at ha
            rcases ha with rfl | rfl | rfl
            · left; exact rfl
            · left; exact rfl
            · right; rfl
          · exact rfl
      | some p =>
        by_cases hpxsi : p = "xsi"
        · subst hpxsi
          refine ⟨"xsi" ++ ":" ++ qn, [("xmlns:xsi", xsiURI), ("xsi:nil", "true")], ?_,
            by simp, by simp, rfl, ?_⟩
          · rw [c4_ser_quxsi qn u tr m si jt els ats inh hub]
          · exact c4_deser qn ("xsi" ++ ":" ++ qn) _
              (by rw [qnameParse_prefixed "xsi" qn rfl]) (by decide) (by decide)
              rfl rfl rfl
        · refine ⟨p ++ ":" ++ qn,
            [("xmlns:" ++ p, u), ("xmlns:xsi", xsiURI), ("xsi:nil", "true")], ?_,
            by simp, by simp, rfl, ?_⟩
          · rw [c4_ser_qup qn u p tr m si jt els ats inh hub hpxsi]
          · refine c4_deser qn (p ++ ":" ++ qn) _
              (by rw [qnameParse_prefixed p qn (hpfx p rfl)]) ?_ (by simp) ?_ rfl rfl
            · intro a ha
              simp only [List.mem_cons, List.not_mem_nil, or_false] at ha
              rcases ha with rfl | rfl | rfl
              · left; exact isXmlnsAttr_prefixed p
              · left; decide
              · right; rfl
            · simp only [List.foldl, isXmlnsAttr_prefixed, xmlnsPrefixOf_prefixed, if_true]
              rfl

theorem c4_nillable_roundtrip_witness :
    (ElemDesc.mk { pfx := none, name := "x", nsURI := none } none .unqualified
      false true true none [] [] none).isNillable = true ∧
    splitAtColon ("x" : String).data = none ∧
    ∃ nm attrs,
      XMLHandler.jsonToXml defaultHandler 2 none none
        (some (.element (.mk { pfx := none, name := "x", nsURI := none } none .unqualified
          false true true none [] [] none))) JValue.null
        = ({ attributes := [], children := .cons (.element nm attrs .nil) .nil },
           freshNs, some (.element (.mk { pfx := none, name := "x", nsURI := none } none
             .unqualified false true true none [] [] none))) ∧
      ("xsi:nil", "true") ∈ attrs ∧
      ("xmlns:xsi", xsiURI) ∈ attrs ∧
      XmlBody.eventsOf { attributes := [], children := .cons (.element nm attrs .nil) .nil }
        = some [.openTag nm attrs, .closeTag nm] ∧
      XMLHandler.xmlToJson defaultHandler noReparse none
        [.openTag nm attrs, .closeTag nm] none
        = .ok (.obj none (.cons "x" JValue.null .nil)) :=
  ⟨rfl, rfl,
   c4_nillable_roundtrip _ rfl rfl (fun p h => Option.noConfusion h)
     (fun h => Option.noConfusion h)⟩


/-! ### C1: flat-record round trip -/

theorem sortCompare_le_iff (keys order : List String) (a b : String) :
    sortCompare keys order a b ≤ 0 ↔
      (order.indexOf a < order.indexOf b ∨
        (order.indexOf a = order.indexOf b ∧ keys.indexOf a ≤ keys.indexOf b)) := by
  simp only [sortCompare, compareIdx, jsIndexOrLen]
  split <;> constructor <;> intro hx <;> omega

theorem pairwise_indexOf_lt {l : List String} (hl : l.Nodup) :
    l.Pairwise (fun x y => l.indexOf x < l.indexOf y) := by
  rw [List.pairwise_iff_get]
  intro i j hij
  have hi := List.indexOf_getElem hl i.1 i.2
  have hj := List.indexOf_getElem hl j.1 j.2
  simp only [List.get_eq_getElem, hi, hj]
  exact hij


theorem recordProps_keys (fields : List (String × String)) :
    (recordProps fields).keys = fields.map Prod.fst := by
  induction fields with
  | nil => rfl
  | cons p rest ih =>
    simp only [recordProps, List.map_cons, JProps.ofList, JProps.keys, List.map_cons]
    rw [← ih]
    rfl

theorem recordProps_get_absent (fields : List (String × String)) (k : String)
    (h : ∀ p ∈ fields, p.1 ≠ k) : (recordProps fields).get k = .undef := by
  induction fields with
  | nil => rfl
  | cons p rest ih =>
    have hp : (p.1 == k) = false := by
      simp [h p (List.mem_cons_self p rest)]
    simp only [recordProps, List.map_cons, JProps.ofList, JProps.get, hp,
      Bool.false_eq_true, if_false]
    exact ih (fun q hq => h q (List.mem_cons_of_mem p hq))

theorem recordProps_get (fields : List (String × String)) (pr : String × String)
    (hk : (fields.map Prod.fst).Nodup) (hm : pr ∈ fields) :
    (recordProps fields).get pr.1 = .str pr.2 := by
  induction fields with
  | nil => simp at hm
  | cons p rest ih =>
    rcases List.mem_cons.mp hm with rfl | hm'
    · simp [recordProps, JProps.ofList, JProps.get]
    · have hne : (p.1 == pr.1) = false := by
        have : pr.1 ∈ rest.map Prod.fst := List.mem_map_of_mem Prod.fst hm'
        have hni := (List.nodup_cons.mp hk).1
        simp only [beq_eq_false_iff_ne, ne_eq]
        intro hEq
        exact hni (hEq ▸ this)
      simp only [recordProps, List.map_cons, JProps.ofList, JProps.get, hne,
        Bool.false_eq_true, if_false]
      exact ih (List.nodup_cons.mp hk).2 hm'

theorem find_self (p : String) : ∀ (l : List String), p ∈ l →
    l.find? (fun q => q == p) = some p
  | q :: t, hm => by
    by_cases hq : q = p
    · simp [List.find?, hq]
    · have hb : (q == p) = false := by simp [hq]
      simp only [List.find?, hb]
      exact find_self p t (by
        rcases List.mem_cons.mp hm with h | h
        · exact absurd h.symm hq
        · exact h)

theorem findElemTable_simple (names : List String) (p : String) (hm : p ∈ names) :
    findElemTable (names.map simpleStrField) p = some (simpleStrField p) := by
  unfold findElemTable
  rw [← List.map_reverse]
  have hrev : p ∈ names.reverse := List.mem_reverse.mpr hm
  have hfind := find_self p names.reverse hrev
  rw [List.find?_map]
  have hcomp : ((fun e => e.qname.name == p) ∘ simpleStrField) = (fun q => q == p) := by
    funext q
    rfl
  rw [hcomp, hfind]
  rfl

theorem hasKey_set_false : ∀ (props : JProps) (k : String) (v : JValue) (k' : String),
    props.hasKey k' = false → (k == k') = false → (props.set k v).hasKey k' = false
  | .nil, k, v, k', _, h2 => by simp [JProps.set, JProps.hasKey, h2]
  | .cons a w t, k, v, k', h1, h2 => by
    simp only [JProps.hasKey, Bool.or_eq_false_iff] at h1
    by_cases ha : a = k
    · simp [JProps.set, ha, JProps.hasKey, h1.2, h2]
    · have hb : (a == k) = false := by simp [ha]
      simp only [JProps.set, hb, Bool.false_eq_true, if_false, JProps.hasKey,
        Bool.or_eq_false_iff]
      exact ⟨h1.1, hasKey_set_false t k v k' h1.2 h2⟩

theorem ofList_set_append (l : List (String × JValue)) (k : String) (v : JValue)
    (hk : ∀ e ∈ l, e.1 ≠ k) :
    (JProps.ofList l).set k v = JProps.ofList (l ++ [(k, v)]) := by
  induction l with
  | nil => rfl
  | cons e t ih =>
    obtain ⟨ek, ev⟩ := e
    have hne : (ek == k) = false := by
      simp [hk (ek, ev) (List.mem_cons_self _ _)]
    simp only [JProps.ofList, JProps.set, hne, Bool.false_eq_true, if_false,
      List.cons_append]
    rw [ih (fun q hq => hk q (List.mem_cons_of_mem _ hq))]
    rfl

theorem sortKeysList_self (keys : List String) (hk : keys.Nodup) :
    sortKeysList keys keys = keys := by
  unfold sortKeysList
  apply List.Sorted.insertionSort_eq
  unfold List.Sorted
  refine (pairwise_indexOf_lt hk).imp ?_
  intro a b hab
  exact (sortCompare_le_iff keys keys a b).mpr (Or.inl hab)

theorem foldl_addChild_attributes (f : String × String → XmlContent) :
    ∀ (l : List (String × String)) (node : XmlBody),
      (l.foldl (fun nd x => nd.addChild (f x)) node).attributes = node.attributes
  | [], _ => rfl
  | x :: t, node => by
    rw [List.foldl_cons, foldl_addChild_attributes f t]
    rfl

theorem eventsOf_append :
    ∀ (a b : XmlContents) (ea eb : List SaxEvent), XmlContents.eventsOf a = some ea →
      XmlContents.eventsOf b = some eb →
      XmlContents.eventsOf (a.append b) = some (ea ++ eb)
  | .nil, b, ea, eb, ha, hb => by
    simp only [XmlContents.eventsOf] at ha
    cases ha
    simpa [XmlContents.append]
  | .cons c rest, b, ea, eb, ha, hb => by
    simp only [XmlContents.eventsOf] at ha
    cases hc : XmlContent.eventsOf c with
    | none => rw [hc] at ha; exact Option.noConfusion ha
    | some ec =>
      rw [hc] at ha
      cases hr : XmlContents.eventsOf rest with
      | none => rw [hr] at ha; exact Option.noConfusion ha
      | some er =>
        rw [hr] at ha
        cases ha
        have := eventsOf_append rest b er eb hr hb
        simp only [XmlContents.append, XmlContents.eventsOf, hc, this]
        simp

theorem jsonToXmlF_elem_str (h : Handler) (f : Nat) (node : XmlBody) (ns : NsContext)
    (e : ElemDesc) (s : String) :
    jsonToXmlF h (f + 1) node ns (some (.element e)) (.str s)
      = ((elementBranchF h f node ns e (.str s)).1,
         (elementBranchF h f node ns e (.str s)).2.1,
         some (.element (elementBranchF h f node ns e (.str s)).2.2)) := rfl

theorem jsonToXmlF_elem_obj (h : Handler) (f : Nat) (node : XmlBody) (ns : NsContext)
    (e : ElemDesc) (tg : Option Nat) (fs : JProps) :
    jsonToXmlF h (f + 1) node ns (some (.element e)) (.obj tg fs)
      = ((elementBranchF h f node ns e (.obj tg fs)).1,
         (elementBranchF h f node ns e (.obj tg fs)).2.1,
         some (.element (elementBranchF h f node ns e (.obj tg fs)).2.2)) := rfl

theorem c1_child_ser (g : Nat) (p s : String) (node : XmlBody) (ns : NsContext)
    (hs : containsSub s "<![CDATA" = false) :
    jsonToXmlF defaultHandler (g + 2) node ns (some (.element (simpleStrField p))) (.str s)
      = (node.addChild (.element p [] (.cons (.text s) .nil)), ns,
         some (.element (simpleStrField p))) := by
  rw [show g + 2 = (g + 1) + 1 from rfl, jsonToXmlF_elem_str]
  rw [elementBranchF]
  simp [hs, simpleStrField, jsToStr, jsIsObjectNonNull, jsGet, jsIsNullish,
    elementTextChildren, toXmlDateOrTime, Descriptor.typeRefOf, ElemDesc.typeRef,
    ElemDesc.isSimple, ElemDesc.form, ElemDesc.qname, ElemDesc.isNillable,
    enforceRestrictionsStep, defaultHandler, NsContext.pushContext, NsContext.popContext,
    XmlBody.setAttr, XmlBody.addChild, XmlContents.append, addAttributes]

theorem replFirst_simple (p : String) :
    ∀ (l : List ElemDesc), (∀ x ∈ l, x.qname.name = p → x = simpleStrField p) →
      replFirstByName l p (simpleStrField p) = l
  | [], _ => rfl
  | x :: t, h => by
    by_cases hx : x.qname.name = p
    · have hxe : x = simpleStrField p := h x (List.mem_cons_self _ _) hx
      have hb : (x.qname.name == p) = true := by simp [hx]
      simp only [replFirstByName, hb, if_true]
      rw [hxe]
    · have hb : (x.qname.name == p) = false := by simp [hx]
      simp only [replFirstByName, hb, Bool.false_eq_true, if_false]
      rw [replFirst_simple p t (fun y hy => h y (List.mem_cons_of_mem _ hy))]

/-- Writing a simple string-field descriptor back into a table made of
simple string fields changes nothing. -/
theorem replaceLast_simple (names : List String) (p : String) :
    replaceLastByName (names.map simpleStrField) p (simpleStrField p)
      = names.map simpleStrField := by
  unfold replaceLastByName
  rw [replFirst_simple p]
  · exact List.reverse_reverse _
  · intro x hx hname
    rcases List.mem_map.mp (List.mem_reverse.mp hx) with ⟨q, hq, rfl⟩
    have hqp : q = p := by simpa [simpleStrField, ElemDesc.qname] using hname
    rw [hqp]

theorem c1_fields_ser :
    ∀ (fields : List (String × String)) (g : Nat) (node : XmlBody) (ns : NsContext)
      (val : JValue) (descOpt : Option Descriptor),
      (∀ pr ∈ fields, pr.1 ≠ "$attributes" ∧ jsGet val pr.1 = .str pr.2 ∧
        findElemTable (Descriptor.elementsOf descOpt) pr.1 = some (simpleStrField pr.1) ∧
        containsSub pr.2 "<![CDATA" = false ∧
        Descriptor.withReplacedElem descOpt pr.1 (simpleStrField pr.1) = descOpt) →
      mapFieldsF defaultHandler (fields.length + g + 2) node ns descOpt val
        (fields.map Prod.fst)
        = (fields.foldl (fun nd pr =>
            nd.addChild (.element pr.1 [] (.cons (.text pr.2) .nil))) node, ns, descOpt)
  | [], g, node, ns, val, descOpt, _ => rfl
  | pr :: rest, g, node, ns, val, descOpt, h => by
    obtain ⟨h1, h2, h3, h4, h5⟩ := h pr (List.mem_cons_self pr rest)
    have hb : (pr.1 == defaultHandler.options.attributesKey) = false := by
      simp [defaultHandler]
      exact h1
    have hf : (pr :: rest).length + g + 2 = (rest.length + g + 2) + 1 := by
      simp [List.length_cons]
      omega
    rw [List.map_cons, hf, mapFieldsF]
    simp only [hb, Bool.false_eq_true, if_false, h2, h3]
    rw [show rest.length + g + 2 = (rest.length + g) + 2 from rfl,
      c1_child_ser (rest.length + g) pr.1 pr.2 node ns h4]
    simp only [h5]
    rw [show (rest.length + g) + 2 = rest.length + g + 2 from rfl]
    rw [c1_fields_ser rest g _ ns val descOpt
      (fun q hq => h q (List.mem_cons_of_mem pr hq))]
    rw [List.foldl_cons]

theorem c1_ser (nm : String) (fields : List (String × String))
    (hk : (fields.map Prod.fst).Nodup)
    (hfld : ∀ pr ∈ fields, pr.1 ≠ "$attributes" ∧ pr.1 ≠ "$value" ∧
      containsSub pr.2 "<![CDATA" = false) :
    (XMLHandler.jsonToXml defaultHandler (fields.length + 6) none none
      (some (.element (flatRecordDesc nm (fields.map Prod.fst))))
      (.obj none (recordProps fields))).1
      = { attributes := [],
          children := .cons (.element nm []
            ((fields.foldl (fun nd pr =>
              nd.addChild (.element pr.1 [] (.cons (.text pr.2) .nil)))
              ({} : XmlBody)).children)) .nil } := by
  have hga : JProps.get (recordProps fields) "$attributes" = .undef :=
    recordProps_get_absent _ _ (fun pr hm => (hfld pr hm).1)
  have hgv : JProps.get (recordProps fields) "$value" = .undef :=
    recordProps_get_absent _ _ (fun pr hm => (hfld pr hm).2.1)
  have hcomp : (fun (e : ElemDesc) => e.qname.name) ∘ simpleStrField = id :=
    funext fun x => rfl
  have hmf := c1_fields_ser fields 1 ({} : XmlBody)
    (NsContext.pushContext freshNs)
    (.obj none (recordProps fields))
    (some (.element (flatRecordDesc nm (fields.map Prod.fst))))
    (fun pr hm => ⟨(hfld pr hm).1,
      by simpa [jsGet] using recordProps_get fields pr hk hm,
      by
        simp only [Descriptor.elementsOf, flatRecordDesc, ElemDesc.elements]
        exact findElemTable_simple _ _ (List.mem_map_of_mem Prod.fst hm),
      (hfld pr hm).2.2,
      by
        simp only [Descriptor.withReplacedElem, flatRecordDesc, ElemDesc.withElements,
          ElemDesc.elements, replaceLast_simple]⟩)
  rw [XMLHandler.jsonToXml]
  simp only [Option.getD]
  rw [show fields.length + 6 = (fields.length + 5) + 1 from rfl, jsonToXmlF_elem_obj]
  rw [show fields.length + 5 = (fields.length + 4) + 1 from rfl, elementBranchF]
  have hbu : (JValue.undef == JValue.undef) = true := rfl
  have hbn : (JValue.null == JValue.null) = true := rfl
  simp [jsGet, hga, hgv, hbu, hbn, jsIsObjectNonNull, jsIsNullish, jsTypeofObject,
    flatRecordDesc, ElemDesc.isSimple, ElemDesc.form, ElemDesc.qname, ElemDesc.isNillable,
    ElemDesc.typeRef, ElemDesc.elements, Descriptor.typeRefOf, Descriptor.elementsOf,
    enforceRestrictionsStep, defaultHandler, toXmlDateOrTime, applyInheritance,
    isDate, isArr, XmlBody.setAttr]
  rw [show fields.length + 4 = (fields.length + 3) + 1 from rfl, mapObjectF]
  have hcomp2 : (fun (e : ElemDesc) => e.qname.name) ∘ simpleStrField ∘ Prod.fst
      = (Prod.fst : String × String → String) := funext fun _ => rfl
  simp [jsIsNullish, jsTypeofObject, isDate, isArr, getXsiType, sortKeysOf,
    recordProps_keys, Descriptor.elementsOf, ElemDesc.elements, List.map_map, hcomp, hcomp2,
    List.map_id, sortKeysList_self _ hk, jsGet, flatRecordDesc, hbu, hbn]
  simp only [defaultHandler, flatRecordDesc, List.map_map] at hmf
  rw [show fields.length + 3 = fields.length + 1 + 2 from rfl, hmf]
  simp only [addAttributes, foldl_addChild_attributes]
  rfl

theorem c1_children_events :
    ∀ (fields : List (String × String)) (node : XmlBody) (evs0 : List SaxEvent),
      XmlContents.eventsOf node.children = some evs0 →
      XmlContents.eventsOf (fields.foldl (fun nd pr =>
        nd.addChild (.element pr.1 [] (.cons (.text pr.2) .nil))) node).children
        = some (evs0 ++ fields.flatMap (fun pr =>
            [SaxEvent.openTag pr.1 [], .text pr.2, .closeTag pr.1]))
  | [], node, evs0, h => by simpa using h
  | pr :: rest, node, evs0, h => by
    rw [List.foldl_cons]
    have hone : XmlContents.eventsOf
        (.cons (.element pr.1 [] (.cons (.text pr.2) .nil)) .nil)
        = some [SaxEvent.openTag pr.1 [], .text pr.2, .closeTag pr.1] := rfl
    have hchild : XmlContents.eventsOf
        (node.addChild (.element pr.1 [] (.cons (.text pr.2) .nil))).children
        = some (evs0 ++ [SaxEvent.openTag pr.1 [], .text pr.2, .closeTag pr.1]) := by
      simp only [XmlBody.addChild]
      exact eventsOf_append _ _ _ _ h hone
    rw [c1_children_events rest _ _ hchild]
    simp

theorem c1_open_plain (p : String) (hp : splitAtColon p.data = none)
    (top : Frame) (rest : List Frame) (refs : List (String × RefEntry)) (k : Nat)
    (ns0 : NsContext) (hdescr : top.descr = none) :
    onOpenTag defaultHandler ⟨top :: rest, refs, k, ns0⟩ p []
      = ⟨⟨some p, .undef, none, none⟩ :: top :: rest, refs, k, ns0.pushContext⟩ := by
  simp only [onOpenTag, List.foldl_nil, List.foldl, qnameParse_plain p hp, List.lookup,
    List.headD, hdescr]

theorem c1_text_plain (h : Handler) (fn : Option String) (rest : List Frame) (s : String)
    (refs : List (String × RefEntry)) (k : Nat) (ns0 : NsContext)
    (ht : jsTrim s = s) (hne : s ≠ "") :
    onTextEv h ⟨⟨fn, .undef, none, none⟩ :: rest, refs, k, ns0⟩ s
      = ⟨⟨fn, .str s, none, none⟩ :: rest, refs, k, ns0⟩ := by
  have hlen : ¬(s.length = 0) := by
    intro h0
    exact hne (by
      cases s with
      | mk data =>
        cases data with
        | nil => rfl
        | cons c t => simp [String.length] at h0)
  simp only [onTextEv, ht, hlen, if_false, parseValue, Descriptor.jsTypeOf,
    processTextVal]
  simp

theorem c1_close_plain (p : String) (hp : splitAtColon p.data = none)
    (fn : Option String) (acc : JValue) (rest : List Frame) (v : JValue)
    (refs : List (String × RefEntry)) (k : Nat) (ns0 : NsContext)
    (hacc : acc = .undef ∨ ∃ props, acc = .obj none props)
    (hkey : jsHasKey acc p = false) :
    onCloseTag ⟨⟨some p, v, none, none⟩ :: ⟨fn, acc, none, none⟩ :: rest,
        refs, k, ns0.pushContext⟩ p
      = ⟨⟨fn, jsSetKey (if acc = JValue.undef then JValue.obj none .nil else acc) p v,
          none, none⟩ :: rest, refs, k, ns0⟩ := by
  rcases hacc with h0 | ⟨props, h0⟩ <;> subst h0
  · simp [onCloseTag, qnameParse_plain p hp, NsContext.pushContext, NsContext.popContext,
      jsTypeofObject, jsHasKey, JProps.hasKey, Descriptor.isManyOf, jsSetKey, JProps.set]
  · simp only [jsHasKey] at hkey
    simp [onCloseTag, qnameParse_plain p hp, NsContext.pushContext, NsContext.popContext,
      jsTypeofObject, jsHasKey, hkey, Descriptor.isManyOf, jsSetKey]

theorem c1_deser_loop (nm : String) (rootF : Frame) :
    ∀ (fields : List (String × String)) (acc : JValue)
      (rs : List (String × RefEntry)) (k : Nat) (ns0 : NsContext),
      (∀ pr ∈ fields, splitAtColon pr.1.data = none ∧ jsTrim pr.2 = pr.2 ∧ pr.2 ≠ "") →
      (acc = .undef ∨ ∃ props, acc = .obj none props) →
      (∀ pr ∈ fields, jsHasKey acc pr.1 = false) →
      (fields.map Prod.fst).Nodup →
      List.foldl (stepEvent defaultHandler noReparse)
        ⟨[⟨some nm, acc, none, none⟩, rootF], rs, k, ns0⟩
        (fields.flatMap (fun pr => [SaxEvent.openTag pr.1 [], .text pr.2, .closeTag pr.1]))
      = ⟨[⟨some nm, fields.foldl (fun o pr =>
            jsSetKey (if o = JValue.undef then JValue.obj none .nil else o)
              pr.1 (.str pr.2)) acc, none, none⟩, rootF], rs, k, ns0⟩
  | [], acc, rs, k, ns0, _, _, _, _ => by simp
  | pr :: rest, acc, rs, k, ns0, hfld, hacc, hkeys, hnd => by
    obtain ⟨hp1, hp2, hp3⟩ := hfld pr (List.mem_cons_self pr rest)
    rw [List.flatMap_cons]
    rw [show ([SaxEvent.openTag pr.1 [], .text pr.2, .closeTag pr.1]
        ++ rest.flatMap (fun q => [SaxEvent.openTag q.1 [], .text q.2, .closeTag q.1]))
      = SaxEvent.openTag pr.1 [] :: SaxEvent.text pr.2 :: SaxEvent.closeTag pr.1
        :: rest.flatMap (fun q => [SaxEvent.openTag q.1 [], .text q.2, .closeTag q.1])
      from rfl]
    rw [List.foldl_cons, List.foldl_cons, List.foldl_cons]
    simp only [stepEvent]
    rw [c1_open_plain pr.1 hp1 _ _ rs k ns0 rfl]
    rw [c1_text_plain defaultHandler _ _ pr.2 rs k (ns0.pushContext) hp2 hp3]
    rw [c1_close_plain pr.1 hp1 _ acc _ _ rs k ns0 hacc
      (hkeys pr (List.mem_cons_self pr rest))]
    have hacc' : jsSetKey (if acc = JValue.undef then JValue.obj none .nil else acc)
        pr.1 (.str pr.2) = .undef ∨
        ∃ props, jsSetKey (if acc = JValue.undef then JValue.obj none .nil else acc)
          pr.1 (.str pr.2) = .obj none props := by
      rcases hacc with h0 | ⟨props, h0⟩ <;> subst h0
      · right
        exact ⟨_, rfl⟩
      · right
        simp [jsSetKey]
    have hkeys' : ∀ q ∈ rest, jsHasKey (jsSetKey
        (if acc = JValue.undef then JValue.obj none .nil else acc) pr.1 (.str pr.2))
        q.1 = false := by
      intro q hq
      have hnd' : (pr.1 :: rest.map Prod.fst).Nodup := by simpa using hnd
      have hqp : (pr.1 == q.1) = false := by
        have hni := (List.nodup_cons.mp hnd').1
        simp only [beq_eq_false_iff_ne, ne_eq]
        intro hEq
        exact hni (hEq ▸ List.mem_map_of_mem Prod.fst hq)
      rcases hacc with h0 | ⟨props, h0⟩ <;> subst h0
      · simp [jsSetKey, jsHasKey, JProps.set, JProps.hasKey, hqp]
      · have hk0 := hkeys q (List.mem_cons_of_mem pr hq)
        simp only [jsHasKey] at hk0
        simp only [jsSetKey, jsHasKey]
        have hif : (if JValue.obj none props = JValue.undef then JValue.obj none JProps.nil
            else JValue.obj none props) = JValue.obj none props := by simp
        rw [hif]
        exact hasKey_set_false props pr.1 (.str pr.2) q.1 hk0 hqp
    rw [c1_deser_loop nm rootF rest _ rs k ns0
      (fun q hq => hfld q (List.mem_cons_of_mem pr hq)) hacc' hkeys'
      (by
        have hnd' : (pr.1 :: rest.map Prod.fst).Nodup := by simpa using hnd
        exact (List.nodup_cons.mp hnd').2)]
    rw [List.foldl_cons]

theorem c1_fold_pre :
    ∀ (rest pre : List (String × String)),
      ((pre ++ rest).map Prod.fst).Nodup →
      rest.foldl (fun o pr =>
        jsSetKey (if o = JValue.undef then JValue.obj none .nil else o) pr.1 (.str pr.2))
        (.obj none (recordProps pre))
      = .obj none (recordProps (pre ++ rest))
  | [], pre, _ => by simp
  | pr :: rest, pre, hnd => by
    have hnotin : pr.1 ∉ pre.map Prod.fst := by
      intro hin
      have hmap : ((pre.map Prod.fst) ++ (pr.1 :: rest.map Prod.fst)).Nodup := by
        simpa using hnd
      have hdisj := (List.nodup_append.mp hmap).2.2
      exact hdisj hin (List.mem_cons_self _ _)
    have hstep : jsSetKey
        (if (JValue.obj none (recordProps pre)) = JValue.undef then JValue.obj none .nil
         else JValue.obj none (recordProps pre)) pr.1 (.str pr.2)
        = .obj none (recordProps (pre ++ [pr])) := by
      have hif : (if (JValue.obj none (recordProps pre)) = JValue.undef
          then JValue.obj none .nil else JValue.obj none (recordProps pre))
          = JValue.obj none (recordProps pre) := by simp
      rw [hif]
      simp only [jsSetKey]
      rw [show recordProps pre = JProps.ofList (pre.map fun q => (q.1, JValue.str q.2))
        from rfl]
      rw [ofList_set_append _ pr.1 (.str pr.2) (by
        intro e he
        rcases List.mem_map.mp he with ⟨q, hq, rfl⟩
        intro hEq
        exact hnotin (hEq ▸ List.mem_map_of_mem Prod.fst hq))]
      rw [show recordProps (pre ++ [pr])
        = JProps.ofList ((pre ++ [pr]).map fun q => (q.1, JValue.str q.2)) from rfl]
      rw [List.map_append]
      rfl
    rw [List.foldl_cons, hstep]
    rw [c1_fold_pre rest (pre ++ [pr]) (by simpa using hnd)]
    rw [show pre ++ [pr] ++ rest = pre ++ pr :: rest by simp]

theorem c1_fold_record (fields : List (String × String)) (hne : fields ≠ [])
    (hnd : (fields.map Prod.fst).Nodup) :
    fields.foldl (fun o pr =>
      jsSetKey (if o = JValue.undef then JValue.obj none .nil else o) pr.1 (.str pr.2))
      JValue.undef
      = .obj none (recordProps fields) := by
  cases fields with
  | nil => exact absurd rfl hne
  | cons pr rest =>
    rw [List.foldl_cons]
    rw [show jsSetKey (if (JValue.undef : JValue) = JValue.undef then JValue.obj none .nil
        else JValue.undef) pr.1 (.str pr.2) = .obj none (recordProps [pr]) from rfl]
    rw [c1_fold_pre rest [pr] (by simpa using hnd)]
    rfl

/-- C1 (corrected): the round trip holds for a flat record of simple
string fields under its full descriptor, provided the element and
field names are colon-free, the root is not named `Envelope`, no field
uses a reserved object key, the record is not empty, keys are not
repeated, and every value is a non-empty whitespace-trimmed string
with no CDATA opener.  (Empty-string values refute the unconditional
claim: see the counterexample.) -/
theorem c1_flat_roundtrip (nm : String) (fields : List (String × String))
    (hnm : splitAtColon nm.data = none)
    (hroot : nm ≠ "Envelope")
    (hne : fields ≠ [])
    (hk : (fields.map Prod.fst).Nodup)
    (hfk : ∀ pr ∈ fields, splitAtColon pr.1.data = none ∧ pr.1 ≠ "$attributes" ∧
      pr.1 ≠ "$value")
    (hfv : ∀ pr ∈ fields, jsTrim pr.2 = pr.2 ∧ pr.2 ≠ "" ∧
      containsSub pr.2 "<![CDATA" = false) :
    c1RoundTrip nm fields
      = .ok (.obj none (.cons nm (.obj none (recordProps fields)) .nil)) := by
  unfold c1RoundTrip
  rw [c1_ser nm fields hk
    (fun pr hm => ⟨(hfk pr hm).2.1, (hfk pr hm).2.2, (hfv pr hm).2.2⟩)]
  have hch := c1_children_events fields ({} : XmlBody) [] rfl
  have hev : XmlContents.eventsOf (XmlContents.cons (.element nm []
      ((fields.foldl (fun nd pr =>
        nd.addChild (.element pr.1 [] (.cons (.text pr.2) .nil)))
        ({} : XmlBody)).children)) .nil)
      = some ((SaxEvent.openTag nm []
          :: fields.flatMap (fun pr => [SaxEvent.openTag pr.1 [], .text pr.2, .closeTag pr.1]))
          ++ [SaxEvent.closeTag nm]) := by
    simp only [XmlContents.eventsOf, XmlContent.eventsOf, hch]
    simp
  simp only [XmlBody.eventsOf, hev]
  simp only [XMLHandler.xmlToJson, Option.getD]
  rw [List.cons_append, List.foldl_cons]
  simp only [stepEvent]
  rw [c1_open_plain nm hnm _ _ [] 0 freshNs rfl]
  rw [List.foldl_append]
  rw [c1_deser_loop nm ⟨none, .obj none .nil, none, none⟩ fields .undef [] 0
    (NsContext.pushContext freshNs)
    (fun pr hm => ⟨(hfk pr hm).1, (hfv pr hm).1, (hfv pr hm).2.1⟩)
    (Or.inl rfl) (fun pr hm => rfl) hk]
  rw [c1_fold_record fields hne hk]
  rw [List.foldl_cons]
  simp only [stepEvent]
  rw [c1_close_plain nm hnm none (.obj none .nil) [] (.obj none (recordProps fields))
    [] 0 freshNs (Or.inr ⟨.nil, rfl⟩) rfl]
  simp only [List.foldl_nil]
  have hne2 : (nm == "Envelope") = false := by
    simp only [beq_eq_false_iff_ne, ne_eq]
    exact hroot
  simp [finalizeRoot, jsGet, JProps.get, jsSetKey, JProps.set, hne2, jsTruthy,
    List.getLast?, jsIsNullish]

/-- C1 counterexample: a flat string record with an empty-string
field does not round-trip: the serializer renders an empty element
(the builder emits an empty text node), the deserializer's text
handler drops whitespace-only chunks, and the merged value for the
field is `undefined` rather than `""`. -/
theorem c1_counterexample :
    c1RoundTrip "p" [("x", "")]
      = .ok (.obj none (.cons "p" (.obj none (.cons "x" JValue.undef .nil)) .nil)) ∧
    (JValue.obj none (.cons "p" (.obj none (.cons "x" JValue.undef .nil)) .nil))
      ≠ .obj none (.cons "p" (.obj none (recordProps [("x", "")])) .nil) :=
  ⟨rfl, by decide⟩

theorem c1_flat_roundtrip_witness :
    (([("a", "1"), ("b", "2")] : List (String × String)).map Prod.fst).Nodup ∧
    ([("a", "1"), ("b", "2")] : List (String × String)) ≠ [] ∧
    c1RoundTrip "r" [("a", "1"), ("b", "2")]
      = .ok (.obj none (.cons "r"
          (.obj none (recordProps [("a", "1"), ("b", "2")])) .nil)) :=
  ⟨by decide, by decide,
   c1_flat_roundtrip "r" _ rfl (by decide) (by decide) (by decide) (by decide) (by decide)⟩

/-! ### C9: property iteration order -/

theorem sortKeysList_eq (keys order : List String) (hk : keys.Nodup) (ho : order.Nodup) :
    sortKeysList keys order
      = order.filter (fun n => decide (n ∈ keys))
        ++ keys.filter (fun n => decide (n ∉ order)) := by
  classical
  haveI htot : IsTotal String (fun a b => sortCompare keys order a b ≤ 0) := by
    constructor
    intro a b
    rw [sortCompare_le_iff, sortCompare_le_iff]
    omega
  haveI htr : IsTrans String (fun a b => sortCompare keys order a b ≤ 0) := by
    constructor
    intro a b c h1 h2
    rw [sortCompare_le_iff] at h1 h2 ⊢
    omega
  haveI hanti : IsAntisymm String (rankLt keys order) := by
    constructor
    intro a b h1 h2
    exfalso
    unfold rankLt at h1 h2
    omega
  have hperm1 : List.Perm (sortKeysList keys order) keys := List.perm_insertionSort _ _
  have hsorted1 : List.Sorted (fun a b => sortCompare keys order a b ≤ 0)
      (sortKeysList keys order) := List.sorted_insertionSort _ _
  have hnd1 : (sortKeysList keys order).Nodup := hperm1.nodup_iff.mpr hk
  -- the insertion-sorted list is sorted for the strict order
  have hs1 : List.Sorted (rankLt keys order) (sortKeysList keys order) := by
    rw [List.Sorted, List.pairwise_iff_get]
    intro i j hij
    have hle := (List.pairwise_iff_get.mp hsorted1) i j hij
    rw [sortCompare_le_iff] at hle
    have hne : (sortKeysList keys order).get i ≠ (sortKeysList keys order).get j := by
      intro e
      exact absurd (hnd1.get_inj_iff.mp e) (Fin.ne_of_lt hij)
    have hmi : (sortKeysList keys order).get i ∈ keys := hperm1.subset (List.get_mem _ _ _)
    have hmj : (sortKeysList keys order).get j ∈ keys := hperm1.subset (List.get_mem _ _ _)
    rcases hle with h | ⟨heq, hle2⟩
    · exact Or.inl h
    · refine Or.inr ⟨heq, lt_of_le_of_ne hle2 fun e => ?_⟩
      exact hne ((List.indexOf_inj hmi hmj).mp e)
  -- the described concatenation is sorted for the strict order
  have hndP1 : (order.filter (fun n => decide (n ∈ keys))).Nodup := ho.filter _
  have hndP2 : (keys.filter (fun n => decide (n ∉ order))).Nodup := hk.filter _
  have hmemP1 : ∀ {x : String}, x ∈ order.filter (fun n => decide (n ∈ keys)) →
      x ∈ order ∧ x ∈ keys := by
    intro x hx
    have := List.mem_filter.mp hx
    exact ⟨this.1, by simpa using this.2⟩
  have hmemP2 : ∀ {x : String}, x ∈ keys.filter (fun n => decide (n ∉ order)) →
      x ∈ keys ∧ x ∉ order := by
    intro x hx
    have := List.mem_filter.mp hx
    exact ⟨this.1, by simpa using this.2⟩
  have hs2 : List.Sorted (rankLt keys order)
      (order.filter (fun n => decide (n ∈ keys))
        ++ keys.filter (fun n => decide (n ∉ order))) := by
    rw [List.Sorted, List.pairwise_append]
    refine ⟨?_, ?_, ?_⟩
    · exact ((pairwise_indexOf_lt ho).filter _).imp fun h => Or.inl h
    · have base := (pairwise_indexOf_lt hk).filter (fun n => decide (n ∉ order))
      rw [List.pairwise_iff_get] at base ⊢
      intro i j hij
      have hlt := base i j hij
      have hni := (hmemP2 (List.get_mem _ i.1 i.2)).2
      have hnj := (hmemP2 (List.get_mem _ j.1 j.2)).2
      refine Or.inr ⟨?_, hlt⟩
      rw [List.indexOf_eq_length.mpr hni, List.indexOf_eq_length.mpr hnj]
    · intro a ha b hb
      have h1 := (hmemP1 ha).1
      have h2 := (hmemP2 hb).2
      exact Or.inl (lt_of_lt_of_le (List.indexOf_lt_length.mpr h1)
        (le_of_eq (List.indexOf_eq_length.mpr h2).symm))
  -- both sides are permutations of the keys
  have hndRHS : (order.filter (fun n => decide (n ∈ keys))
      ++ keys.filter (fun n => decide (n ∉ order))).Nodup := by
    rw [List.nodup_append]
    exact ⟨hndP1, hndP2, fun x hx hx2 => (hmemP2 hx2).2 (hmemP1 hx).1⟩
  have hpermRHS : List.Perm (order.filter (fun n => decide (n ∈ keys))
      ++ keys.filter (fun n => decide (n ∉ order))) keys := by
    rw [List.perm_ext_iff_of_nodup hndRHS hk]
    intro x
    constructor
    · intro hx
      rcases List.mem_append.mp hx with hx | hx
      · exact (hmemP1 hx).2
      · exact (hmemP2 hx).1
    · intro hx
      by_cases hxo : x ∈ order
      · exact List.mem_append.mpr (Or.inl (List.mem_filter.mpr ⟨hxo, by simpa using hx⟩))
      · exact List.mem_append.mpr (Or.inr (List.mem_filter.mpr ⟨hx, by simpa using hxo⟩))
  exact List.eq_of_perm_of_sorted (hperm1.trans hpermRHS.symm) hs1 hs2

/-- C9: for every object value serialized against a descriptor, the
property iteration order of the object-to-children mapping is:
properties matching declared element names first, in declaration
order, then the remaining properties in their original insertion
order (distinct keys never tie, so insertion order is what breaks the
comparator's ties); the attributes-key is excluded from the iteration
(skipped inside the loop). -/
theorem c9_sort_keys_order (tag : Option Nat) (props : JProps) (order : List String)
    (hk : props.keys.Nodup) (ho : order.Nodup) :
    sortKeysOf (.obj tag props) order
      = order.filter (fun n => decide (n ∈ props.keys))
        ++ props.keys.filter (fun n => decide (n ∉ order)) ∧
    (∀ aKey : String,
      (sortKeysOf (.obj tag props) order).filter (fun n => !(n == aKey))
        = (order.filter (fun n => decide (n ∈ props.keys))).filter (fun n => !(n == aKey))
          ++ (props.keys.filter (fun n => decide (n ∉ order))).filter
              (fun n => !(n == aKey))) := by
  have base : sortKeysOf (.obj tag props) order
      = order.filter (fun n => decide (n ∈ props.keys))
        ++ props.keys.filter (fun n => decide (n ∉ order)) := by
    show sortKeysList props.keys order = _
    exact sortKeysList_eq props.keys order hk ho
  exact ⟨base, fun aKey => by rw [base, List.filter_append]⟩

/-- Witness for C9 at a concrete object and declaration order. -/
theorem c9_sort_keys_order_witness :
    sortKeysOf (.obj none (.cons "extra" (.str "1") (.cons "b" (.str "2")
        (.cons "a" (.str "3") (.cons "zz" (.str "4") .nil))))) ["a", "b", "c"]
      = ["a", "b", "extra", "zz"] :=
  ((c9_sort_keys_order none (.cons "extra" (.str "1") (.cons "b" (.str "2")
      (.cons "a" (.str "3") (.cons "zz" (.str "4") .nil)))) ["a", "b", "c"]
      (by decide) (by decide)).1).trans (by decide)

end StrongSoap
